import Mathlib

/-!
Verification of the dual-channel, priority-scheduled message processing core
(`message_processor/`): handlers, the LLM queue manager and the processor
facade. Python source is embedded shallowly: dicts keyed by task id become
insertion-ordered association lists, the `asyncio.PriorityQueue` becomes the
CPython `heapq` algorithm on a `List`, the worker loop becomes a step
interpreter over an explicit operation sequence, and network I/O becomes an
explicit environment value describing the upstream outcome.
-/

set_option autoImplicit false

/-! ### Priorities and tasks (queue_manager.py: Priority, LLMTask) -/

/-- `Priority` from queue_manager.py: an IntEnum with USER_RESPONSE = 1 and
SCREEN_TEXT = 2; comparison is on the numeric value. -/
inductive Priority where
  | userResponse
  | screenText
  deriving DecidableEq, Repr, Inhabited

/-- Numeric value of the IntEnum member (USER_RESPONSE = 1, SCREEN_TEXT = 2). -/
def Priority.val : Priority → Nat
  | .userResponse => 1
  | .screenText => 2

/-- `LLMTask` from queue_manager.py. The uuid4 task id is abstracted to the
Nat counter that mints it, so ids record submission order; the handler
reference and callback do not influence queue behaviour and the handler's
outcome is supplied by the worker step that finishes the task. -/
structure LLMTask where
  task_id : Nat
  message : String
  priority : Priority
  deriving DecidableEq, Repr, Inhabited

/-- `LLMTask.__lt__`: `self.priority < other.priority` — only the priority is
compared, submission time is ignored. -/
def taskLt (a b : LLMTask) : Bool := a.priority.val < b.priority.val

/-- Comparison key of a task in the heap order. -/
def key (t : LLMTask) : Nat := t.priority.val

/-! ### CPython `heapq` on a list
`asyncio.PriorityQueue` stores items in a plain list and calls
`heapq.heappush` / `heapq.heappop`. The three CPython routines `_siftdown`,
`_siftup`, `heappush`, `heappop` are transcribed below. `_siftdown`'s final
`heap[pos] = newitem` write is the last `List.set` of `siftdownAux`; since
`siftdownAux` receives `newitem` explicitly it never reads `heap[pos]`, so the
`heap[pos] = newitem` assignment CPython performs before calling `_siftdown`
from `_siftup` is fused into that final write. -/

/-- The loop of `heapq._siftdown(heap, startpos, pos)` with `newitem =
heap[pos]` passed explicitly: bubble `newitem` up towards `startpos`,
shifting parents down. The parent slot `(pos - 1) / 2` and its occupant
`heap[parentpos]` are inlined where CPython binds locals `parentpos` and
`parent`. The `while` loop is expressed with an explicit iteration bound:
`pos` strictly decreases each iteration, so any bound of at least `pos`
iterations (the caller `siftdownAux` supplies exactly `pos`) never runs out,
and when the bound is `0` the position is already `startpos ≤ pos = 0` and
the body below coincides with the loop exit `heap[pos] = newitem`. -/
def siftdownGo : Nat → List LLMTask → Nat → LLMTask → Nat → List LLMTask
  | 0, heap, _, newitem, pos => heap.set pos newitem
  | fuel + 1, heap, startpos, newitem, pos =>
    if startpos < pos then
      if taskLt newitem (heap.getD ((pos - 1) / 2) default) then
        siftdownGo fuel (heap.set pos (heap.getD ((pos - 1) / 2) default)) startpos newitem
          ((pos - 1) / 2)
      else
        heap.set pos newitem
    else
      heap.set pos newitem

/-- `heapq._siftdown(heap, startpos, pos)` with `newitem` passed explicitly. -/
def siftdownAux (heap : List LLMTask) (startpos : Nat) (newitem : LLMTask) (pos : Nat) :
    List LLMTask :=
  siftdownGo pos heap startpos newitem pos

/-- `heapq.heappush`: append then sift down from the new slot. -/
def heappush (heap : List LLMTask) (item : LLMTask) : List LLMTask :=
  siftdownAux (heap ++ [item]) 0 item heap.length

/-- The `childpos` selection inside `heapq._siftup`'s loop: start from the
left child `2 * pos + 1`; move to the right sibling when it exists and the
left child does not compare strictly below it (so ties pick the right
child). -/
def childSel (heap : List LLMTask) (pos : Nat) : Nat :=
  if 2 * pos + 2 < heap.length ∧
      ¬ taskLt (heap.getD (2 * pos + 1) default) (heap.getD (2 * pos + 2) default)
  then 2 * pos + 2 else 2 * pos + 1

/-- The loop of `heapq._siftup(heap, pos)` with `newitem = heap[pos]` passed
explicitly: bounce the hole at `pos` down to a leaf, always following the
child chosen by `childSel`, then sift the saved `newitem` back up (CPython
writes `heap[pos] = newitem` before `_siftdown`; `siftdownGo` receives
`newitem` directly and never reads that slot, so the write is fused into its
final assignment). `endpos` is the list length, which `List.set` preserves.
The `while` loop is expressed with an explicit iteration bound: `pos`
strictly increases below `heap.length` each iteration, so the bound
`heap.length` supplied by `siftupAux` never runs out, and when the bound is
`0` the position has no child in range and the body coincides with the loop
exit. -/
def siftupGo : Nat → List LLMTask → Nat → LLMTask → Nat → List LLMTask
  | 0, heap, startpos, newitem, pos => siftdownAux heap startpos newitem pos
  | fuel + 1, heap, startpos, newitem, pos =>
    if 2 * pos + 1 < heap.length then
      siftupGo fuel (heap.set pos (heap.getD (childSel heap pos) default)) startpos newitem
        (childSel heap pos)
    else
      siftdownAux heap startpos newitem pos

/-- `heapq._siftup(heap, pos)` with `newitem` passed explicitly. -/
def siftupAux (heap : List LLMTask) (startpos : Nat) (newitem : LLMTask) (pos : Nat) :
    List LLMTask :=
  siftupGo heap.length heap startpos newitem pos

/-- `heapq.heappop`: pop the last element; if the heap is still non-empty,
return the root after moving the last element there and sifting it up.
Returns `none` on the empty heap, where `asyncio.Queue.get` would block. -/
def heappop (heap : List LLMTask) : Option (LLMTask × List LLMTask) :=
  match heap.getLast? with
  | none => none
  | some lastelt =>
    match _hrest : heap.dropLast with
    | [] => some (lastelt, [])
    | x :: _ => some (x, siftupAux (heap.dropLast.set 0 lastelt) 0 lastelt 0)

/-- The binary-heap ordering invariant of `heapq`: no element compares
strictly below its parent. -/
def HeapInv (l : List LLMTask) : Prop :=
  ∀ j, 0 < j → j < l.length → key (l.getD ((j - 1) / 2) default) ≤ key (l.getD j default)

/-! ### Processing results (handlers.py)
Every handler returns a dict; the union of the fields appearing in the
result dicts of handlers.py is collected into one record, absent keys being
`none`. The vector similarity score is carried as an opaque integer: no code
under verification computes with it. -/

/-- The result dict shape produced by the handlers. -/
structure PResult where
  rtype : String
  content : String
  source : String
  error : Option String := none
  model : Option String := none
  prompt : Option String := none
  author : Option String := none
  tags : Option (List String) := none
  similarity_score : Option Int := none
  query : Option String := none
  context_quote : Option String := none
  context_author : Option String := none
  context_tags : Option (List String) := none
  llm_model : Option String := none
  deriving DecidableEq, Repr, Inhabited

/-- `EchoHandler.process`. -/
def echoProcess (message : String) : PResult :=
  { rtype := "echo", content := message, source := "user_input" }

/-- Configuration of `LLMHandler` (`ollama_config`): only the model name and
prompt template influence the returned value. -/
structure OllamaCfg where
  model : String
  prompt_template : String
  deriving DecidableEq, Repr, Inhabited

/-- The characters Python `str.isspace()` accepts (and `str.strip()` with no
argument removes): U+0009 to U+000D, U+001C to U+001F, space, U+0085 NEL,
U+00A0 NBSP, U+1680, U+2000 to U+200A, U+2028, U+2029, U+202F, U+205F and
U+3000. -/
def pyIsSpace (c : Char) : Bool :=
  decide ((9 ≤ c.toNat ∧ c.toNat ≤ 13) ∨ (28 ≤ c.toNat ∧ c.toNat ≤ 31) ∨
    c.toNat = 32 ∨ c.toNat = 133 ∨ c.toNat = 160 ∨ c.toNat = 5760 ∨
    (8192 ≤ c.toNat ∧ c.toNat ≤ 8202) ∨ c.toNat = 8232 ∨ c.toNat = 8233 ∨
    c.toNat = 8239 ∨ c.toNat = 8287 ∨ c.toNat = 12288)

/-- Python `str.strip()` with no argument: drop leading and trailing
whitespace characters. -/
def pyStrip (s : String) : String :=
  ⟨((s.data.dropWhile pyIsSpace).reverse.dropWhile pyIsSpace).reverse⟩

/-- The opening brace character. -/
def lbrace : Char := Char.ofNat 123

/-- The closing brace character. -/
def rbrace : Char := Char.ofNat 125

/-- One left-to-right scan of Python `str.format(message=...)` over the
template text: a doubled brace is an escaped literal brace, the replacement
field named `message` is substituted by `repl`, and — as in CPython, where
these raise ValueError/KeyError/IndexError inside the caller's `try` — an
unmatched brace or any other replacement field is a formatting error. Fields
carrying a conversion or a format spec are not used by this repository's
templates and are conservatively reported as errors as well. The iteration
bound (instantiated with the template length) never runs out, since every
step consumes at least one character. -/
def pyFormatGo (repl : List Char) : Nat → List Char → Except String (List Char)
  | _, [] => Except.ok []
  | 0, _ :: _ => Except.error "format scan exhausted"
  | fuel + 1, c :: rest =>
    if c = lbrace then
      match rest with
      | c2 :: rest2 =>
        if c2 = lbrace then
          (pyFormatGo repl fuel rest2).map (fun l => lbrace :: l)
        else
          match rest.drop (rest.takeWhile (fun d => d != rbrace)).length with
          | _ :: rest3 =>
            if rest.takeWhile (fun d => d != rbrace) = "message".data then
              (pyFormatGo repl fuel rest3).map (fun l => repl ++ l)
            else
              Except.error "unsupported replacement field in format string"
          | [] => Except.error "expected closing brace before end of string"
      | [] => Except.error "expected closing brace before end of string"
    else if c = rbrace then
      match rest with
      | c2 :: rest2 =>
        if c2 = rbrace then
          (pyFormatGo repl fuel rest2).map (fun l => rbrace :: l)
        else
          Except.error "single closing brace encountered in format string"
      | [] => Except.error "single closing brace encountered in format string"
    else
      (pyFormatGo repl fuel rest).map (fun l => c :: l)

/-- `template.format(message=...)` for the templates of handlers.py:
substitution succeeds for every well-formed template and raises — reported
as `Except.error` — for a malformed one. -/
def pyFormat (template message : String) : Except String String :=
  (pyFormatGo message.data template.data.length template.data).map
    (fun l => ⟨l⟩)

/-- Outcome of the HTTP POST to the local generation service: either the
request raised (connection error, timeout), or a status code and body text
came back. -/
inductive LLMEnv where
  | raised (e : String)
  | response (status : Nat) (text : String)
  deriving DecidableEq, Repr, Inhabited

/-- The `llm_error` fallback dict of `LLMHandler.process`. -/
def mkLLMError (message e : String) : PResult :=
  { rtype := "llm_error", content := message, source := "fallback_echo", error := some e }

/-- `LLMHandler.process`: render the prompt, call the service; a formatting
error in the prompt template, a non-200 status and an empty stripped body
each raise inside the handler's `try` and are caught by its own `except`,
which degrades to an error dict carrying the original message. -/
def llmProcess (cfg : OllamaCfg) (message : String) (env : LLMEnv) : PResult :=
  match pyFormat cfg.prompt_template message with
  | .error e => mkLLMError message e
  | .ok prompt =>
    match env with
    | .raised e => mkLLMError message e
    | .response status text =>
      if status ≠ 200 then mkLLMError message ("Ollama API error: " ++ toString status)
      else
        let content := pyStrip text
        if content = "" then mkLLMError message "Empty response from LLM"
        else
          { rtype := "llm", content := content, source := "ollama",
            model := some cfg.model, prompt := some prompt }

/-- A row returned by the vector index query in `QuoteHandler.process`. -/
structure QuoteRecord where
  text : String
  author : String
  tags : List String
  score : Int
  deriving DecidableEq, Repr, Inhabited

/-- Upstream state observed by `QuoteHandler.process`: whether the sentence
transformer loaded, and the outcomes of the two Neo4j queries (either raising
or returning a value). -/
structure QuoteEnv where
  model_available : Bool
  count_outcome : Except String Nat
  query_outcome : Except String (List QuoteRecord)
  deriving Repr, Inhabited

/-- The `quote_error` fallback dict of `QuoteHandler.process`. -/
def mkQuoteError (message e : String) : PResult :=
  { rtype := "quote_error", content := message, source := "fallback_echo", error := some e }

/-- `QuoteHandler.process`: missing model, a raised query, an empty count and
an empty result list each degrade to `quote_error` with the original message
as content; otherwise the top row is returned with provenance. -/
def quoteProcess (message : String) (env : QuoteEnv) : PResult :=
  if ¬ env.model_available then
    mkQuoteError message "Sentence transformer model not available"
  else
    match env.count_outcome with
    | .error e => mkQuoteError message e
    | .ok n =>
      if n = 0 then mkQuoteError message "No quotes with embeddings found"
      else
        match env.query_outcome with
        | .error e => mkQuoteError message e
        | .ok [] => mkQuoteError message "No similar quotes found"
        | .ok (r :: _) =>
          { rtype := "quote", content := r.text, source := "vector_search",
            author := some r.author, tags := some r.tags,
            similarity_score := some r.score, query := some message }

/-- Configuration of `RAGHandler`: the inner LLM handler's configuration plus
the `rag_prompt_template`. -/
structure RAGCfg where
  llmCfg : OllamaCfg
  rag_prompt_template : String
  deriving DecidableEq, Repr, Inhabited

/-- Environment of one `RAGHandler.process` call: the quote step's upstream
state, the (single) generation call's upstream outcome, and an escape hatch
for an exception raised by the surrounding `try` body itself (e.g. a
`KeyError` from a malformed configured template), which the handler's own
`except` turns into `rag_error`. -/
structure RAGEnv where
  quoteEnv : QuoteEnv
  llmEnv : LLMEnv
  exc : Option String
  deriving Repr, Inhabited

/-- The `rag_error` fallback dict of `RAGHandler.process`. -/
def mkRAGError (message e : String) : PResult :=
  { rtype := "rag_error", content := message, source := "fallback_echo", error := some e }

/-- `RAGHandler.process`: quote search first; on `quote_error` degrade to a
plain LLM call on the original message; otherwise format the retrieved quote
into the RAG prompt (a formatting error in the configured RAG template
raises inside the handler's `try` and is caught as `rag_error`), run the LLM
with the pass-through template `{message}` — which always formats — return
the quote alone if generation fails, else the combined `rag` dict. -/
def ragProcess (cfg : RAGCfg) (message : String) (env : RAGEnv) : PResult :=
  match env.exc with
  | some e => mkRAGError message e
  | none =>
    let quote_result := quoteProcess message env.quoteEnv
    if quote_result.rtype = "quote_error" then
      llmProcess cfg.llmCfg message env.llmEnv
    else
      match pyFormat cfg.rag_prompt_template quote_result.content with
      | .error e => mkRAGError message e
      | .ok rag_prompt =>
        let llm_result := llmProcess { cfg.llmCfg with prompt_template := "{message}" }
          rag_prompt env.llmEnv
        if llm_result.rtype = "llm_error" then quote_result
        else
          { rtype := "rag", content := llm_result.content, source := "rag_processing",
            context_quote := some quote_result.content,
            context_author := quote_result.author,
            context_tags := quote_result.tags,
            similarity_score := quote_result.similarity_score,
            query := some message,
            llm_model := some (llm_result.model.getD "unknown") }

/-! ### Queue manager state (queue_manager.py: LLMQueueManager)
`results` and `task_status` are Python dicts keyed by task id; they are
embedded as insertion-ordered association lists, since `clear_old_results`
relies on `list(self.results.keys())` returning insertion order. A stored
result is either a handler result dict or one of the bare `{"error": ...}`
dicts written by the failure paths. -/

/-- A task status string of queue_manager.py ("unknown" is the absence of an
entry). -/
inductive TStatus where
  | queued
  | processing
  | completed
  | failed
  deriving DecidableEq, Repr, Inhabited

/-- A value of the `results` dict: a handler result dict, or the bare error
dict `{"error": e}` stored by the worker's except branch and by the
queue-readiness timeout branch of `submit_task`. -/
inductive StoredResult where
  | ok (r : PResult)
  | err (e : String)
  deriving DecidableEq, Repr, Inhabited

/-- `d[k] = v` on an insertion-ordered dict: update the existing entry in
place, else append. -/
def setA {α : Type} (m : List (Nat × α)) (k : Nat) (v : α) : List (Nat × α) :=
  match m with
  | [] => [(k, v)]
  | (k1, v1) :: rest => if k1 = k then (k1, v) :: rest else (k1, v1) :: setA rest k v

/-- `d.get(k)` on an insertion-ordered dict. -/
def lookupA {α : Type} (m : List (Nat × α)) (k : Nat) : Option α :=
  match m with
  | [] => none
  | (k1, v1) :: rest => if k1 = k then some v1 else lookupA rest k

/-- `d.pop(k, None)` on an insertion-ordered dict. -/
def popA {α : Type} (m : List (Nat × α)) (k : Nat) : List (Nat × α) :=
  match m with
  | [] => []
  | (k1, v1) :: rest => if k1 = k then rest else (k1, v1) :: popA rest k

/-- The mutable state of one `LLMQueueManager`. `heap` is the list inside
`asyncio.PriorityQueue`; `pending_tasks` is `_pending_tasks`; `deliveries`
are the `add_to_queue` coroutines scheduled by `submit_task` via
`run_coroutine_threadsafe` that have not run yet, in scheduling (FIFO) order.
`processedOrder` and `handlerCalls` are observation-only ghost fields
recording, respectively, the order in which the worker marks tasks
processing and how many handler invocations the worker has started. -/
structure QMState where
  heap : List LLMTask
  pending_tasks : List LLMTask
  deliveries : List LLMTask
  results : List (Nat × StoredResult)
  task_status : List (Nat × TStatus)
  current_task : Option LLMTask
  nextId : Nat
  processedOrder : List Nat
  handlerCalls : Nat
  deriving DecidableEq, Repr, Inhabited

/-- The dict `{"error": "Queue initialization timeout"}` stored when
`_queue_ready` is not signalled within 5 seconds. -/
def queueTimeoutResult : StoredResult := .err "Queue initialization timeout"

/-- One atomic observable step of the queue manager. Producer steps
(`submit`, `submitTimeout`, `storeResult`) and worker steps (`deliver`,
`drain`, `dequeue`, `finishOk`, `finishErr`) may interleave arbitrarily;
interleavings of the Python threads are modelled by the order of operations
in a list. -/
inductive QOp where
  /-- `submit_task` (normal path): mint an id, set status "queued", append
  the task to `_pending_tasks`, and schedule an `add_to_queue` coroutine. -/
  | submit (message : String) (priority : Priority)
  /-- `submit_task` when `_queue_ready.wait` times out: status "failed" and
  an error dict, nothing queued. -/
  | submitTimeout (message : String) (priority : Priority)
  /-- One scheduled `add_to_queue` coroutine runs: `queue.put` the task. -/
  | deliver
  /-- Top of the worker loop: move every `_pending_tasks` entry into the
  queue and clear the list. -/
  | drain
  /-- `queue.get` returns: set `current_task`, mark the task "processing"
  and start its handler. -/
  | dequeue
  /-- The handler coroutine returns `r`: store it, mark "completed", clear
  `current_task`. -/
  | finishOk (r : PResult)
  /-- The handler raises `e`: mark "failed", store `{"error": e}`, clear
  `current_task`. -/
  | finishErr (e : String)
  /-- `_store_result` under a freshly minted uuid (the only way callers in
  processor.py use it): store the dict and mark "completed". -/
  | storeResult (r : StoredResult)
  /-- `clear_old_results()` is invoked. -/
  | clearOld

/-- `clear_old_results`: when more than 100 results are stored, pop the
oldest `len - 100` ids from both dicts (the age-based branch of the Python
function inspects statuses but performs no action). -/
def clearOldResults (s : QMState) : QMState :=
  if s.results.length > 100 then
    let oldest := (s.results.map Prod.fst).take (s.results.length - 100)
    { s with results := oldest.foldl popA s.results,
             task_status := oldest.foldl popA s.task_status }
  else s

/-- The transition function. Worker steps whose precondition does not hold
(no current task to finish, empty queue, no scheduled coroutine) leave the
state unchanged. -/
def step (s : QMState) (op : QOp) : QMState :=
  match op with
  | .submit message priority =>
    let t : LLMTask := ⟨s.nextId, message, priority⟩
    { s with task_status := setA s.task_status s.nextId .queued,
             pending_tasks := s.pending_tasks ++ [t],
             deliveries := s.deliveries ++ [t],
             nextId := s.nextId + 1 }
  | .submitTimeout _ _ =>
    { s with task_status := setA s.task_status s.nextId .failed,
             results := setA s.results s.nextId queueTimeoutResult,
             nextId := s.nextId + 1 }
  | .deliver =>
    match s.deliveries with
    | [] => s
    | t :: rest => { s with heap := heappush s.heap t, deliveries := rest }
  | .drain =>
    { s with heap := s.pending_tasks.foldl heappush s.heap, pending_tasks := [] }
  | .dequeue =>
    match s.current_task with
    | some _ => s
    | none =>
      match heappop s.heap with
      | none => s
      | some (t, rest) =>
        { s with heap := rest,
                 current_task := some t,
                 task_status := setA s.task_status t.task_id .processing,
                 processedOrder := s.processedOrder ++ [t.task_id],
                 handlerCalls := s.handlerCalls + 1 }
  | .finishOk r =>
    match s.current_task with
    | none => s
    | some t =>
      { s with results := setA s.results t.task_id (.ok r),
               task_status := setA s.task_status t.task_id .completed,
               current_task := none }
  | .finishErr e =>
    match s.current_task with
    | none => s
    | some t =>
      { s with task_status := setA s.task_status t.task_id .failed,
               results := setA s.results t.task_id (.err e),
               current_task := none }
  | .storeResult r =>
    { s with results := setA s.results s.nextId r,
             task_status := setA s.task_status s.nextId .completed,
             nextId := s.nextId + 1 }
  | .clearOld => clearOldResults s

/-- The initial state of a fresh `LLMQueueManager`. -/
def initQM : QMState :=
  { heap := [], pending_tasks := [], deliveries := [], results := [],
    task_status := [], current_task := none, nextId := 0,
    processedOrder := [], handlerCalls := 0 }

/-- Run a sequence of operations from the initial state; the states
`runOps ops` for arbitrary `ops` are exactly the reachable states. -/
def runOps (ops : List QOp) : QMState :=
  ops.foldl step initQM

/-- `wait_for_result(task_id, timeout)`: a cooperative poll. The list holds
the state observed at each polling iteration; its length is the number of
iterations the timeout window admits. Each iteration returns the result as
soon as it is stored, breaks out (returning the `None` sentinel) when the
status is terminal without a stored result, and otherwise sleeps and polls
again. The function is total: it never raises. -/
def waitForResult : List QMState → Nat → Option StoredResult
  | [], _ => none
  | st :: rest, task_id =>
    match lookupA st.results task_id with
    | some r => some r
    | none =>
      match lookupA st.task_status task_id with
      | some .completed => none
      | some .failed => none
      | _ => waitForResult rest task_id

/-! ### Processor facade (processor.py: MessageProcessor) -/

/-- Python's `override or fallback` used to resolve a mode argument against
the stored settings: the override applies only when it is present and
truthy, so both `None` and the falsy empty string fall back to the settings
value. -/
def pyOr (override : Option String) (fallback : String) : String :=
  match override with
  | none => fallback
  | some m => if m = "" then fallback else m

/-- `processing_settings`. -/
structure Settings where
  user_response_mode : String
  screen_text_mode : String
  deriving DecidableEq, Repr, Inhabited

/-- `valid_modes` in `update_settings`. -/
def validModes : List String := ["echo", "llm", "quote", "rag"]

/-- `update_settings`: each field is updated only when the proposed value is
in the closed mode set, the two checks being independent; an invalid value
only logs a warning. -/
def update_settings (s : Settings) (user_response_mode screen_text_mode : String) : Settings :=
  let s1 := if user_response_mode ∈ validModes
    then { s with user_response_mode := user_response_mode } else s
  if screen_text_mode ∈ validModes
    then { s1 with screen_text_mode := screen_text_mode } else s1

/-- The keys of `self.handlers` after a successful `_initialize_handlers`. -/
def handlerModes : List String := ["echo", "llm", "quote", "rag"]

/-- `_process_single_message`. The serialized branch's interaction with the
queue is summarised by two parameters: `tid`, the id `submit_task` mints for
the enqueued task, and `wait`, the value `wait_for_result` comes back with
(`none` being the timeout sentinel; see `waitForResult` for its semantics).
The `quote` branch runs inline against the quote environment; `llm`/`rag`
handlers only run inside the worker. Returns the result dict and the
optional queue task id. -/
def processSingleMessage (qe : QuoteEnv) (message mode : String)
    (wait : Option StoredResult) (tid : Nat) : StoredResult × Option Nat :=
  if mode ∉ handlerModes then
    (.ok (echoProcess message), none)
  else if mode = "llm" ∨ mode = "rag" then
    match wait with
    | none => (.ok (echoProcess message), some tid)
    | some r => (r, some tid)
  else if mode = "echo" then
    (.ok (echoProcess message), none)
  else
    (.ok (quoteProcess message qe), none)

/-- `process_user_immediate`: resolve the user mode with `user_mode or
settings` — a truthy argument overrides the settings, while `None` and the
empty string fall back — and process at UserResponse priority; the returned
dict holds the user response and the optional queue task id. -/
def process_user_immediate (settings : Settings) (qe : QuoteEnv) (message : String)
    (user_mode : Option String) (wait : Option StoredResult) (tid : Nat) :
    StoredResult × Option Nat :=
  let user_response_mode := pyOr user_mode settings.user_response_mode
  processSingleMessage qe message user_response_mode wait tid

/-- The non-reuse tail of `process_screen_async`: serialized modes submit at
ScreenText priority and return the pollable task id; non-serialized modes run
inline and store the result under a fresh id; an unregistered mode raises
`KeyError` on `self.handlers[screen_text_mode]`, modelled as `none`. -/
def screenAsyncRest (qe : QuoteEnv) (s : QMState) (message screen_text_mode : String) :
    Option (Nat × QMState) :=
  if screen_text_mode = "llm" ∨ screen_text_mode = "rag" then
    some (s.nextId, step s (.submit message .screenText))
  else if screen_text_mode = "echo" then
    some (s.nextId, step s (.storeResult (.ok (echoProcess message))))
  else if screen_text_mode = "quote" then
    some (s.nextId, step s (.storeResult (.ok (quoteProcess message qe))))
  else
    none

/-- `process_screen_async`: resolve both modes with Python's falsy
`argument or settings` (`pyOr`); when they agree and a user result was
passed in, duplicate that result under a freshly minted task id via
`_store_result` instead of invoking any handler; otherwise fall through to
`screenAsyncRest`. Returns the screen task id and the updated queue
state. -/
def processScreenAsync (settings : Settings) (qe : QuoteEnv) (s : QMState)
    (message : String) (screen_mode user_mode : Option String)
    (user_result : Option StoredResult) : Option (Nat × QMState) :=
  let screen_text_mode := pyOr screen_mode settings.screen_text_mode
  let user_response_mode := pyOr user_mode settings.user_response_mode
  match user_result with
  | some r =>
    if screen_text_mode = user_response_mode then
      some (s.nextId, step s (.storeResult r))
    else
      screenAsyncRest qe s message screen_text_mode
  | none => screenAsyncRest qe s message screen_text_mode

/-! ### Reachable-state invariant and observations -/

/-- Number of `task_status` entries currently in the "processing" state. -/
def processingCount (s : QMState) : Nat :=
  (s.task_status.filter (fun p => decide (p.2 = TStatus.processing))).length

/-- Invariant of every reachable queue-manager state: the queue list is a
binary heap, every "processing" status entry belongs to the worker's current
task, and the two dicts have no duplicate keys. -/
structure QMInv (s : QMState) : Prop where
  heapInv : HeapInv s.heap
  procCur : ∀ p ∈ s.task_status, p.2 = TStatus.processing →
    ∃ t, s.current_task = some t ∧ t.task_id = p.1
  statusNodup : (s.task_status.map Prod.fst).Nodup
  resultsNodup : (s.results.map Prod.fst).Nodup

/-! ### Concrete scenarios used below -/

/-- A generation configuration with pass-through templates. -/
def demoOllama : OllamaCfg :=
  { model := "llama3.2:1b", prompt_template := "{message}" }

/-- RAG configuration built from `demoOllama`. -/
def demoRAG : RAGCfg :=
  { llmCfg := demoOllama, rag_prompt_template := "{message}" }

/-- A quote environment whose vector store holds no embedded quotes. -/
def emptyStoreQuoteEnv : QuoteEnv :=
  { model_available := true, count_outcome := .ok 0, query_outcome := .ok [] }

/-- A healthy quote environment with one matching record. -/
def okQuoteEnv : QuoteEnv :=
  { model_available := true, count_outcome := .ok 5,
    query_outcome := .ok [{ text := "q", author := "a", tags := ["t"], score := 9 }] }

/-- Worker/producer interleaving exhibiting the heapq tie behaviour: task 0
is dequeued while tasks 1–4 arrive (their `add_to_queue` coroutines run in
submission order during task 0's handler await); when task 0 finishes, the
worker's pending-task drain re-enqueues all five tasks, after which the
worker keeps dequeuing. All tasks have ScreenText priority. -/
def c1Ops : List QOp :=
  [.submit "x" .screenText, .deliver, .dequeue,
   .submit "a" .screenText, .submit "b" .screenText,
   .submit "c" .screenText, .submit "d" .screenText,
   .deliver, .deliver, .deliver, .deliver,
   .finishOk (echoProcess "x"), .drain,
   .dequeue, .finishOk (echoProcess "x")]

/-- The state reached by `c1Ops`: the worker has processed task 0 and then
task 1, and is about to dequeue again. -/
def c1State : QMState := runOps c1Ops

/-- One ScreenText submission followed by one UserResponse submission, both
drained into the queue. -/
def c1wOps : List QOp :=
  [.submit "a" .screenText, .submit "b" .userResponse, .drain]

/-- 101 results stored through `_store_result` (the screen channel's direct
storage path) with no intervening eviction. -/
def c3Ops : List QOp :=
  List.replicate 101 (QOp.storeResult (.ok (echoProcess "m")))

/-- One serialized user-channel submission, processed by the worker once via
the direct `add_to_queue` delivery and then a second time after the
pending-list drain re-enqueues the same task. -/
def c6Ops : List QOp :=
  [.submit "hello" .userResponse, .deliver, .dequeue,
   .finishOk (llmProcess demoOllama "hello" (.response 200 "a haiku")),
   .drain, .dequeue,
   .finishOk (llmProcess demoOllama "hello" (.response 200 "a haiku"))]

/-- The user-channel result reused by the screen channel in the C6 scenario. -/
def c6Res : PResult := llmProcess demoOllama "hello" (.response 200 "a haiku")

/-- The queue state after the C6 user-channel scenario. -/
def c6State : QMState := runOps c6Ops

/-- The screen channel of the C6 scenario: same mode (`llm` from settings)
as the user channel and the user result available for reuse. -/
def c6Screen : Option (Nat × QMState) :=
  processScreenAsync { user_response_mode := "llm", screen_text_mode := "llm" }
    okQuoteEnv c6State "hello" none none (some (.ok c6Res))

/-- The queue state after the C6 screen channel stored its result. -/
def c6After : QMState := (c6Screen.getD (0, initQM)).2

/-- Polling trace for the C8 witness: first poll sees the task queued, the
second sees it completed with its result stored. -/
def c8s0 : QMState := runOps [.submit "m" .userResponse]

/-- Second observed state of the C8 witness trace. -/
def c8s1 : QMState :=
  runOps [.submit "m" .userResponse, .deliver, .dequeue, .finishOk (echoProcess "m")]

/-- Environment for the C4 counterexample: the vector store is empty (an
upstream failure listed by the claim) while the generation service succeeds. -/
def c4Env : RAGEnv :=
  { quoteEnv := emptyStoreQuoteEnv, llmEnv := .response 200 "a haiku", exc := none }

/-- Environment for the C5 witness: empty vector store and an unreachable
generation service. -/
def c5Env : RAGEnv :=
  { quoteEnv := emptyStoreQuoteEnv, llmEnv := .raised "connection refused", exc := none }

/-- The serialized-path result used by the C10 counterexample: a successful
generation result for the message `"hey"`. -/
def c10Res : PResult := llmProcess demoOllama "hey" (.response 200 "a haiku")

/-! ### List index helpers -/

theorem getD_set_ne {α : Type} : ∀ (l : List α) (i j : Nat) (x d : α), i ≠ j →
    (l.set i x).getD j d = l.getD j d
  | [], _, _, _, _, _ => rfl
  | _ :: t, 0, 0, _, _, hij => absurd rfl hij
  | _ :: _, 0, _ + 1, _, _, _ => rfl
  | _ :: _, _ + 1, 0, _, _, _ => rfl
  | _ :: t, i + 1, j + 1, x, d, hij =>
    getD_set_ne t i j x d (fun h => hij (by omega))

theorem getD_set_self {α : Type} : ∀ (l : List α) (i : Nat) (x d : α), i < l.length →
    (l.set i x).getD i d = x
  | [], i, _, _, h => absurd h (by simp)
  | _ :: _, 0, _, _, _ => rfl
  | _ :: t, i + 1, x, d, h => getD_set_self t i x d (by simpa using h)

theorem getD_append_left {α : Type} : ∀ (l l2 : List α) (j : Nat) (d : α), j < l.length →
    (l ++ l2).getD j d = l.getD j d
  | [], _, j, _, h => absurd h (by simp)
  | _ :: _, _, 0, _, _ => rfl
  | _ :: t, l2, j + 1, d, h => getD_append_left t l2 j d (by simpa using h)

theorem getD_append_self {α : Type} : ∀ (l : List α) (x d : α),
    (l ++ [x]).getD l.length d = x
  | [], _, _ => rfl
  | _ :: t, x, d => getD_append_self t x d

theorem getD_mem {α : Type} : ∀ (l : List α) (j : Nat) (d : α), j < l.length →
    l.getD j d ∈ l
  | [], _, _, h => absurd h (by simp)
  | a :: _, 0, _, _ => List.mem_cons_self a _
  | _ :: t, j + 1, d, h => List.mem_cons_of_mem _ (getD_mem t j d (by simpa using h))

theorem getD_dropLast {α : Type} : ∀ (l : List α) (j : Nat) (d : α), j + 1 < l.length →
    l.dropLast.getD j d = l.getD j d
  | [], _, _, h => absurd h (by simp)
  | [_], _, _, h => absurd h (by simp)
  | _ :: b :: t, 0, _, _ => rfl
  | _ :: b :: t, j + 1, d, h => getD_dropLast (b :: t) j d (by simpa using h)

theorem getD_eq_of_mem_getD {α : Type} : ∀ (l : List α) (x d : α), x ∈ l →
    ∃ j, j < l.length ∧ l.getD j d = x
  | [], _, _, h => absurd h (by simp)
  | a :: t, x, d, h => by
    rcases List.mem_cons.mp h with h1 | h2
    · exact ⟨0, by simp, h1.symm⟩
    · obtain ⟨j, hj, he⟩ := getD_eq_of_mem_getD t x d h2
      exact ⟨j + 1, by simpa using hj, he⟩

theorem mem_of_getLast? {α : Type} : ∀ (l : List α) (x : α), l.getLast? = some x → x ∈ l
  | [], _, h => by simp at h
  | [a], x, h => by
    simp [List.getLast?] at h
    simp [h]
  | a :: b :: t, x, h => by
    have h2 : (b :: t).getLast? = some x := by
      rw [List.getLast?_cons_cons] at h
      exact h
    exact List.mem_cons_of_mem _ (mem_of_getLast? (b :: t) x h2)

/-- `taskLt` decides the strict order on keys. -/
theorem taskLt_iff (a b : LLMTask) : taskLt a b = true ↔ key a < key b := by
  simp [taskLt, key]

/-! ### Heap ordering lemmas
`siftdownAux_inv` and `siftupAux_inv` are the classic hole-threading
arguments: the list satisfies the parent ordering everywhere except around
one hole position, the hole's children additionally dominate both the item
being inserted and the hole's parent, and each loop iteration moves the hole
while re-establishing the side conditions. -/

/-- Writing `newitem` into a hole whose parent (when the hole is not the
root) and whose children all dominate `newitem` suitably restores the heap
ordering. -/
theorem set_hole_inv (newitem : LLMTask) (pos : Nat) (l : List LLMTask)
    (hlen : pos < l.length)
    (hA : ∀ j, 0 < j → j < l.length → j ≠ pos →
      key (l.getD ((j - 1) / 2) default) ≤ key (l.getD j default))
    (hB1 : ∀ j, 0 < j → j < l.length → (j - 1) / 2 = pos →
      key newitem ≤ key (l.getD j default))
    (hpar : 0 < pos → key (l.getD ((pos - 1) / 2) default) ≤ key newitem) :
    HeapInv (l.set pos newitem) := by
  intro j hj hjl
  rw [List.length_set] at hjl
  by_cases hjp : j = pos
  · subst hjp
    rw [getD_set_self l j newitem default hlen,
        getD_set_ne l j ((j - 1) / 2) newitem default (by
          have := Nat.div_le_self (j - 1) 2
          omega)]
    exact hpar hj
  · rw [getD_set_ne l pos j newitem default (Ne.symm hjp)]
    by_cases hpj : (j - 1) / 2 = pos
    · rw [hpj, getD_set_self l pos newitem default hlen]
      exact hB1 j hj hjl hpj
    · rw [getD_set_ne l pos ((j - 1) / 2) newitem default (fun h => hpj h.symm)]
      exact hA j hj hjl hjp

theorem siftdownGo_inv (newitem : LLMTask) :
    ∀ (fuel pos : Nat) (l : List LLMTask), pos ≤ fuel → pos < l.length →
    (∀ j, 0 < j → j < l.length → j ≠ pos →
      key (l.getD ((j - 1) / 2) default) ≤ key (l.getD j default)) →
    (∀ j, 0 < j → j < l.length → (j - 1) / 2 = pos →
      key newitem ≤ key (l.getD j default) ∧
      (0 < pos → key (l.getD ((pos - 1) / 2) default) ≤ key (l.getD j default))) →
    HeapInv (siftdownGo fuel l 0 newitem pos) := by
  intro fuel
  induction fuel with
  | zero =>
    intro pos l hfuel hlen hA hB
    have hp0 : pos = 0 := by omega
    subst hp0
    exact set_hole_inv newitem 0 l hlen hA (fun j a b c => (hB j a b c).1)
      (fun h => absurd h (by omega))
  | succ fuel ih =>
    intro pos l hfuel hlen hA hB
    by_cases h0 : 0 < pos
    · simp only [siftdownGo]
      rw [if_pos h0]
      have hppos : (pos - 1) / 2 < pos := by
        have := Nat.div_le_self (pos - 1) 2
        omega
      by_cases hlt : taskLt newitem (l.getD ((pos - 1) / 2) default) = true
      · rw [if_pos hlt]
        apply ih ((pos - 1) / 2)
        · omega
        · rw [List.length_set]
          exact lt_trans hppos hlen
        · intro j hj hjl hjne
          rw [List.length_set] at hjl
          by_cases hjp : j = pos
          · subst hjp
            rw [getD_set_self l j _ default hlen,
                getD_set_ne l j ((j - 1) / 2) _ default (by omega)]
          · rw [getD_set_ne l pos j _ default (Ne.symm hjp)]
            by_cases hpj : (j - 1) / 2 = pos
            · rw [hpj, getD_set_self l pos _ default hlen]
              exact (hB j hj hjl hpj).2 h0
            · rw [getD_set_ne l pos ((j - 1) / 2) _ default (fun h => hpj h.symm)]
              exact hA j hj hjl hjp
        · intro j hj hjl hpj
          rw [List.length_set] at hjl
          constructor
          · by_cases hjp : j = pos
            · subst hjp
              rw [getD_set_self l j _ default hlen]
              exact le_of_lt ((taskLt_iff _ _).mp hlt)
            · rw [getD_set_ne l pos j _ default (Ne.symm hjp)]
              have h1 := hA j hj hjl hjp
              rw [hpj] at h1
              have h2 := (taskLt_iff newitem (l.getD ((pos - 1) / 2) default)).mp hlt
              omega
          · intro hpp0
            rw [getD_set_ne l pos (((pos - 1) / 2 - 1) / 2) _ default (by
              have h1 := Nat.div_le_self ((pos - 1) / 2 - 1) 2
              omega)]
            by_cases hjp : j = pos
            · subst hjp
              rw [getD_set_self l j _ default hlen]
              exact hA ((j - 1) / 2) hpp0 (lt_trans hppos hlen) (by omega)
            · rw [getD_set_ne l pos j _ default (Ne.symm hjp)]
              have h1 := hA ((pos - 1) / 2) hpp0 (lt_trans hppos hlen) (by omega)
              have h2 := hA j hj hjl hjp
              rw [hpj] at h2
              omega
      · rw [if_neg hlt]
        refine set_hole_inv newitem pos l hlen hA (fun j a b c => (hB j a b c).1) ?_
        intro _
        have h2 : ¬ key newitem < key (l.getD ((pos - 1) / 2) default) :=
          fun hk => hlt ((taskLt_iff _ _).mpr hk)
        omega
    · simp only [siftdownGo]
      rw [if_neg h0]
      have hp0 : pos = 0 := by omega
      subst hp0
      exact set_hole_inv newitem 0 l hlen hA (fun j a b c => (hB j a b c).1)
        (fun h => absurd h (by omega))

theorem siftdownAux_inv (newitem : LLMTask) :
    ∀ (pos : Nat) (l : List LLMTask), pos < l.length →
    (∀ j, 0 < j → j < l.length → j ≠ pos →
      key (l.getD ((j - 1) / 2) default) ≤ key (l.getD j default)) →
    (∀ j, 0 < j → j < l.length → (j - 1) / 2 = pos →
      key newitem ≤ key (l.getD j default) ∧
      (0 < pos → key (l.getD ((pos - 1) / 2) default) ≤ key (l.getD j default))) →
    HeapInv (siftdownAux l 0 newitem pos) := by
  intro pos l hlen hA hB
  exact siftdownGo_inv newitem pos pos l (le_refl pos) hlen hA hB

theorem childSel_lt (l : List LLMTask) (pos : Nat) (h : 2 * pos + 1 < l.length) :
    pos < childSel l pos ∧ childSel l pos < l.length ∧ (childSel l pos - 1) / 2 = pos := by
  unfold childSel
  split <;> omega

theorem childSel_min (l : List LLMTask) (pos : Nat) (_h : 2 * pos + 1 < l.length) :
    ∀ j, 0 < j → j < l.length → (j - 1) / 2 = pos →
      key (l.getD (childSel l pos) default) ≤ key (l.getD j default) := by
  intro j hj hjl hpar
  have hj12 : j = 2 * pos + 1 ∨ j = 2 * pos + 2 := by omega
  by_cases hc : 2 * pos + 2 < l.length ∧
      ¬ taskLt (l.getD (2 * pos + 1) default) (l.getD (2 * pos + 2) default) = true
  · rw [childSel, if_pos hc]
    have hle : key (l.getD (2 * pos + 2) default) ≤ key (l.getD (2 * pos + 1) default) := by
      have h2 : ¬ key (l.getD (2 * pos + 1) default) < key (l.getD (2 * pos + 2) default) :=
        fun hk => hc.2 ((taskLt_iff _ _).mpr hk)
      omega
    rcases hj12 with rfl | rfl
    · exact hle
    · exact le_refl _
  · rw [childSel, if_neg hc]
    rcases hj12 with rfl | rfl
    · exact le_refl _
    · have hc2 : taskLt (l.getD (2 * pos + 1) default) (l.getD (2 * pos + 2) default) = true := by
        by_contra hns
        exact hc ⟨by omega, hns⟩
      exact le_of_lt ((taskLt_iff _ _).mp hc2)

theorem siftupGo_inv (newitem : LLMTask) :
    ∀ (fuel pos : Nat) (l : List LLMTask), l.length ≤ pos + fuel →
    pos < l.length →
    (∀ j, 0 < j → j < l.length → j ≠ pos → (j - 1) / 2 ≠ pos →
      key (l.getD ((j - 1) / 2) default) ≤ key (l.getD j default)) →
    (∀ j, 0 < j → j < l.length → (j - 1) / 2 = pos → 0 < pos →
      key (l.getD ((pos - 1) / 2) default) ≤ key (l.getD j default)) →
    HeapInv (siftupGo fuel l 0 newitem pos) := by
  intro fuel
  induction fuel with
  | zero =>
    intro pos l hfuel hlen _ _
    omega
  | succ fuel ihn =>
    intro pos l hfuel hlen hA hB
    by_cases hc : 2 * pos + 1 < l.length
    · simp only [siftupGo]
      rw [if_pos hc]
      obtain ⟨hcgt, hclen, hcpar⟩ := childSel_lt l pos hc
      have hmin := childSel_min l pos hc
      apply ihn (childSel l pos)
      · rw [List.length_set]
        omega
      · rw [List.length_set]
        exact hclen
      · intro j hj hjl hjne hjpar
        rw [List.length_set] at hjl
        by_cases hjp : j = pos
        · subst hjp
          rw [getD_set_self l j _ default hlen]
          have hjpos : 0 < j := hj
          rw [getD_set_ne l j ((j - 1) / 2) _ default (by omega)]
          exact hB (childSel l j) (by omega) hclen hcpar hjpos
        · rw [getD_set_ne l pos j _ default (Ne.symm hjp)]
          by_cases hpj : (j - 1) / 2 = pos
          · rw [hpj, getD_set_self l pos _ default hlen]
            exact hmin j hj hjl hpj
          · rw [getD_set_ne l pos ((j - 1) / 2) _ default (fun h => hpj h.symm)]
            exact hA j hj hjl hjp hpj
      · intro j hj hjl hjpar _
        rw [List.length_set] at hjl
        rw [hcpar]
        have hjgt : pos < j := by omega
        rw [getD_set_self l pos _ default hlen,
            getD_set_ne l pos j _ default (by omega)]
        have := hA j hj hjl (by omega) (by rw [hjpar]; omega)
        rw [hjpar] at this
        exact this
    · simp only [siftupGo]
      rw [if_neg hc]
      apply siftdownAux_inv newitem pos l hlen
      · intro j hj hjl hjp
        have hjpar : (j - 1) / 2 ≠ pos := by omega
        exact hA j hj hjl hjp hjpar
      · intro j hj hjl hjpar
        omega


theorem siftupAux_inv (newitem : LLMTask) (pos : Nat) (l : List LLMTask)
    (hlen : pos < l.length)
    (hA : ∀ j, 0 < j → j < l.length → j ≠ pos → (j - 1) / 2 ≠ pos →
      key (l.getD ((j - 1) / 2) default) ≤ key (l.getD j default))
    (hB : ∀ j, 0 < j → j < l.length → (j - 1) / 2 = pos → 0 < pos →
      key (l.getD ((pos - 1) / 2) default) ≤ key (l.getD j default)) :
    HeapInv (siftupAux l 0 newitem pos) :=
  siftupGo_inv newitem l.length pos l (by omega) hlen hA hB

/-- `heappush` preserves the heap ordering invariant. -/
theorem heappush_inv (l : List LLMTask) (item : LLMTask) (hinv : HeapInv l) :
    HeapInv (heappush l item) := by
  unfold heappush
  apply siftdownAux_inv item l.length (l ++ [item]) (by simp)
  · intro j hj hjl hjne
    rw [List.length_append, List.length_cons, List.length_nil] at hjl
    have hjlt : j < l.length := by omega
    rw [getD_append_left l [item] j default hjlt,
        getD_append_left l [item] ((j - 1) / 2) default (by omega)]
    exact hinv j hj hjlt
  · intro j hj hjl hjpar
    rw [List.length_append, List.length_cons, List.length_nil] at hjl
    omega

/-- `heappop` preserves the heap ordering invariant. -/
theorem heappop_inv (l : List LLMTask) (t : LLMTask) (rest : List LLMTask)
    (hinv : HeapInv l) (hpop : heappop l = some (t, rest)) : HeapInv rest := by
  unfold heappop at hpop
  split at hpop
  · exact absurd hpop (by simp)
  · split at hpop
    · injection hpop with hpair
      injection hpair with h1 h2
      intro j hj hjl
      rw [← h2] at hjl
      simp at hjl
    · rename_i lastelt hlast x xs hdrop
      injection hpop with hpair
      injection hpair with h1 h2
      rw [← h2]
      have hlen : 0 < l.dropLast.length := by
        rw [hdrop]
        simp
      apply siftupAux_inv lastelt 0 (l.dropLast.set 0 lastelt)
      · rw [List.length_set]
        exact hlen
      · intro j hj hjl hjne hjpar
        rw [List.length_set] at hjl
        rw [getD_set_ne l.dropLast 0 j lastelt default (by omega),
            getD_set_ne l.dropLast 0 ((j - 1) / 2) lastelt default (fun h => hjpar h.symm)]
        have hjlen : j < l.dropLast.length := hjl
        rw [List.length_dropLast] at hjlen
        rw [getD_dropLast l j default (by omega),
            getD_dropLast l ((j - 1) / 2) default (by omega)]
        exact hinv j hj (by omega)
      · intro j hj hjl hjpar hpos0
        omega

/-- `heappop` returns the root element `heap[0]`. -/
theorem heappop_fst (l : List LLMTask) (t : LLMTask) (rest : List LLMTask)
    (hpop : heappop l = some (t, rest)) : t = l.getD 0 default := by
  unfold heappop at hpop
  split at hpop
  · exact absurd hpop (by simp)
  · rename_i lastelt hlast
    split at hpop
    · rename_i hdrop
      injection hpop with hpair
      injection hpair with h1 h2
      cases l with
      | nil => simp at hlast
      | cons a l2 =>
        cases l2 with
        | nil =>
          simp [List.getLast?] at hlast
          rw [← h1, ← hlast]
          rfl
        | cons b l3 =>
          have : (a :: b :: l3).dropLast = a :: (b :: l3).dropLast := rfl
          rw [this] at hdrop
          exact absurd hdrop (by simp)
    · rename_i x xs hdrop
      injection hpop with hpair
      injection hpair with h1 h2
      cases l with
      | nil => simp at hlast
      | cons a l2 =>
        cases l2 with
        | nil => simp at hdrop
        | cons b l3 =>
          have hd : (a :: b :: l3).dropLast = a :: (b :: l3).dropLast := rfl
          rw [hd] at hdrop
          injection hdrop with hx _
          rw [← h1, ← hx]
          rfl

/-- In a list satisfying `HeapInv`, the root has the least key. -/
theorem heapInv_root_min (l : List LLMTask) (hinv : HeapInv l) :
    ∀ j, j < l.length → key (l.getD 0 default) ≤ key (l.getD j default) := by
  intro j
  induction j using Nat.strong_induction_on with
  | _ j ih =>
    intro hjl
    by_cases hj0 : j = 0
    · subst hj0
      exact le_refl _
    · have hj : 0 < j := by omega
      have h1 := hinv j hj hjl
      have h2 := ih ((j - 1) / 2) (by omega) (by omega)
      omega

/-- Every element of the output of `siftdownGo` is an element of the input
or the inserted item. -/
theorem mem_siftdownGo (newitem : LLMTask) :
    ∀ (fuel pos : Nat) (l : List LLMTask) (x : LLMTask), pos ≤ fuel → pos < l.length →
      x ∈ siftdownGo fuel l 0 newitem pos → x ∈ l ∨ x = newitem := by
  intro fuel
  induction fuel with
  | zero =>
    intro pos l x _ _ hmem
    rcases List.mem_or_eq_of_mem_set hmem with hmem2 | hx
    · exact Or.inl hmem2
    · exact Or.inr hx
  | succ fuel ih =>
    intro pos l x hfuel hlen hmem
    by_cases h0 : 0 < pos
    · simp only [siftdownGo] at hmem
      rw [if_pos h0] at hmem
      have hppos : (pos - 1) / 2 < pos := by
        have := Nat.div_le_self (pos - 1) 2
        omega
      by_cases hlt : taskLt newitem (l.getD ((pos - 1) / 2) default) = true
      · rw [if_pos hlt] at hmem
        have := ih ((pos - 1) / 2) (l.set pos (l.getD ((pos - 1) / 2) default)) x
          (by omega) (by rw [List.length_set]; omega) hmem
        rcases this with hmem2 | hx
        · rcases List.mem_or_eq_of_mem_set hmem2 with hmem3 | hx2
          · exact Or.inl hmem3
          · exact Or.inl (hx2 ▸ getD_mem l ((pos - 1) / 2) default (by omega))
        · exact Or.inr hx
      · rw [if_neg hlt] at hmem
        rcases List.mem_or_eq_of_mem_set hmem with hmem2 | hx
        · exact Or.inl hmem2
        · exact Or.inr hx
    · simp only [siftdownGo] at hmem
      rw [if_neg h0] at hmem
      rcases List.mem_or_eq_of_mem_set hmem with hmem2 | hx
      · exact Or.inl hmem2
      · exact Or.inr hx

/-- Every element of the output of `siftdownAux` is an element of the input
or the inserted item. -/
theorem mem_siftdownAux (newitem : LLMTask) (pos : Nat) (l : List LLMTask) (x : LLMTask)
    (hlen : pos < l.length) (hmem : x ∈ siftdownAux l 0 newitem pos) :
    x ∈ l ∨ x = newitem :=
  mem_siftdownGo newitem pos pos l x (le_refl pos) hlen hmem

/-- Every element of the output of `siftupGo` is an element of the input or
the inserted item. -/
theorem mem_siftupGo (newitem : LLMTask) :
    ∀ (fuel pos : Nat) (l : List LLMTask) (x : LLMTask), pos < l.length →
      x ∈ siftupGo fuel l 0 newitem pos → x ∈ l ∨ x = newitem := by
  intro fuel
  induction fuel with
  | zero =>
    intro pos l x hlen hmem
    exact mem_siftdownAux newitem pos l x hlen hmem
  | succ fuel ih =>
    intro pos l x hlen hmem
    by_cases hc : 2 * pos + 1 < l.length
    · simp only [siftupGo] at hmem
      rw [if_pos hc] at hmem
      obtain ⟨hcgt, hclen, _⟩ := childSel_lt l pos hc
      have := ih (childSel l pos) (l.set pos (l.getD (childSel l pos) default)) x
        (by rw [List.length_set]; exact hclen) hmem
      rcases this with hmem2 | hx
      · rcases List.mem_or_eq_of_mem_set hmem2 with hmem3 | hx2
        · exact Or.inl hmem3
        · exact Or.inl (hx2 ▸ getD_mem l (childSel l pos) default hclen)
      · exact Or.inr hx
    · simp only [siftupGo] at hmem
      rw [if_neg hc] at hmem
      exact mem_siftdownAux newitem pos l x hlen hmem

/-- Every element of the output of `siftupAux` is an element of the input or
the inserted item. -/
theorem mem_siftupAux (newitem : LLMTask) (pos : Nat) (l : List LLMTask) (x : LLMTask)
    (hlen : pos < l.length) (hmem : x ∈ siftupAux l 0 newitem pos) :
    x ∈ l ∨ x = newitem :=
  mem_siftupGo newitem l.length pos l x hlen hmem

/-- Every element of `heappush l item` is in `l` or is `item`. -/
theorem mem_heappush (l : List LLMTask) (item x : LLMTask)
    (hmem : x ∈ heappush l item) : x ∈ l ∨ x = item := by
  unfold heappush at hmem
  have := mem_siftdownAux item l.length (l ++ [item]) x (by simp) hmem
  rcases this with hmem2 | hx
  · rcases List.mem_append.mp hmem2 with h | h
    · exact Or.inl h
    · exact Or.inr (by simpa using h)
  · exact Or.inr hx

/-- Elements of the remainder heap returned by `heappop` are elements of the
input. -/
theorem mem_heappop (l : List LLMTask) (t : LLMTask) (rest : List LLMTask) (x : LLMTask)
    (hpop : heappop l = some (t, rest)) (hmem : x ∈ rest) : x ∈ l := by
  unfold heappop at hpop
  split at hpop
  · exact absurd hpop (by simp)
  · rename_i lastelt hlast
    split at hpop
    · injection hpop with hpair
      injection hpair with h1 h2
      rw [← h2] at hmem
      simp at hmem
    · rename_i x2 xs hdrop
      injection hpop with hpair
      injection hpair with h1 h2
      rw [← h2] at hmem
      have hlen : 0 < l.dropLast.length := by
        rw [hdrop]
        simp
      have := mem_siftupAux lastelt 0 (l.dropLast.set 0 lastelt) x
        (by rw [List.length_set]; exact hlen) hmem
      rcases this with hmem2 | hx
      · rcases List.mem_or_eq_of_mem_set hmem2 with hmem3 | hx2
        · exact List.dropLast_subset l hmem3
        · exact hx2 ▸ mem_of_getLast? l lastelt hlast
      · exact hx ▸ mem_of_getLast? l lastelt hlast

/-- If a heap satisfying the invariant contains a UserResponse task, the task
`heappop` returns has UserResponse priority. -/
theorem heappop_userResponse (l : List LLMTask) (t : LLMTask) (rest : List LLMTask)
    (hinv : HeapInv l) (hpop : heappop l = some (t, rest))
    (u : LLMTask) (hu : u ∈ l) (hup : u.priority = Priority.userResponse) :
    t.priority = Priority.userResponse := by
  obtain ⟨j, hjl, hje⟩ := getD_eq_of_mem_getD l u default hu
  have hroot := heapInv_root_min l hinv j hjl
  rw [hje] at hroot
  rw [heappop_fst l t rest hpop]
  have hku : key u = 1 := by
    rw [key, hup]
    rfl
  have hge : 1 ≤ key (l.getD 0 default) := by
    rw [key]
    cases (l.getD 0 default).priority <;> decide
  have hone : key (l.getD 0 default) = 1 := by omega
  cases h : (l.getD 0 default).priority
  · rfl
  · rw [key, h] at hone
    simp [Priority.val] at hone

/-! ### Association-list (dict) lemmas -/

theorem mem_setA {α : Type} : ∀ (m : List (Nat × α)) (k : Nat) (v : α) (p : Nat × α),
    (m.map Prod.fst).Nodup → p ∈ setA m k v → p = (k, v) ∨ (p ∈ m ∧ p.1 ≠ k)
  | [], k, v, p, _, hmem => by
    rw [setA] at hmem
    simp at hmem
    exact Or.inl hmem
  | (k1, v1) :: rest, k, v, p, hnd, hmem => by
    rw [setA] at hmem
    simp only [List.map_cons, List.nodup_cons] at hnd
    by_cases hk : k1 = k
    · rw [if_pos hk] at hmem
      rcases List.mem_cons.mp hmem with h | h
      · subst hk
        exact Or.inl h
      · refine Or.inr ⟨List.mem_cons_of_mem _ h, ?_⟩
        intro hpk
        subst hk
        exact hnd.1 (hpk ▸ List.mem_map_of_mem Prod.fst h)
    · rw [if_neg hk] at hmem
      rcases List.mem_cons.mp hmem with h | h
      · exact Or.inr ⟨h ▸ List.mem_cons_self _ _, by rw [h]; exact hk⟩
      · rcases mem_setA rest k v p hnd.2 h with h2 | h2
        · exact Or.inl h2
        · exact Or.inr ⟨List.mem_cons_of_mem _ h2.1, h2.2⟩

theorem keys_setA_sub {α : Type} : ∀ (m : List (Nat × α)) (k : Nat) (v : α) (x : Nat),
    x ∈ (setA m k v).map Prod.fst → x ∈ m.map Prod.fst ∨ x = k
  | [], k, v, x, hmem => by
    rw [setA] at hmem
    simp at hmem
    exact Or.inr hmem
  | (k1, v1) :: rest, k, v, x, hmem => by
    rw [setA] at hmem
    by_cases hk : k1 = k
    · rw [if_pos hk] at hmem
      simp only [List.map_cons, List.mem_cons] at hmem ⊢
      rcases hmem with h | h
      · exact Or.inl (Or.inl h)
      · exact Or.inl (Or.inr h)
    · rw [if_neg hk] at hmem
      simp only [List.map_cons, List.mem_cons] at hmem ⊢
      rcases hmem with h | h
      · exact Or.inl (Or.inl h)
      · rcases keys_setA_sub rest k v x h with h2 | h2
        · exact Or.inl (Or.inr h2)
        · exact Or.inr h2

theorem nodup_setA {α : Type} : ∀ (m : List (Nat × α)) (k : Nat) (v : α),
    (m.map Prod.fst).Nodup → ((setA m k v).map Prod.fst).Nodup
  | [], k, v, _ => by
    rw [setA]
    simp
  | (k1, v1) :: rest, k, v, hnd => by
    rw [setA]
    simp only [List.map_cons, List.nodup_cons] at hnd
    by_cases hk : k1 = k
    · rw [if_pos hk]
      simp only [List.map_cons, List.nodup_cons]
      exact hnd
    · rw [if_neg hk]
      simp only [List.map_cons, List.nodup_cons]
      refine ⟨?_, nodup_setA rest k v hnd.2⟩
      intro hbad
      rcases keys_setA_sub rest k v k1 hbad with h | h
      · exact hnd.1 h
      · exact hk h

theorem mem_popA {α : Type} : ∀ (m : List (Nat × α)) (k : Nat) (p : Nat × α),
    p ∈ popA m k → p ∈ m
  | [], _, _, hmem => hmem
  | (k1, v1) :: rest, k, p, hmem => by
    rw [popA] at hmem
    by_cases hk : k1 = k
    · rw [if_pos hk] at hmem
      exact List.mem_cons_of_mem _ hmem
    · rw [if_neg hk] at hmem
      rcases List.mem_cons.mp hmem with h | h
      · exact h ▸ List.mem_cons_self _ _
      · exact List.mem_cons_of_mem _ (mem_popA rest k p h)

theorem keys_popA_sub {α : Type} : ∀ (m : List (Nat × α)) (k : Nat) (x : Nat),
    x ∈ (popA m k).map Prod.fst → x ∈ m.map Prod.fst := by
  intro m k x hmem
  obtain ⟨p, hp, he⟩ := List.mem_map.mp hmem
  exact he ▸ List.mem_map_of_mem Prod.fst (mem_popA m k p hp)

theorem nodup_popA {α : Type} : ∀ (m : List (Nat × α)) (k : Nat),
    (m.map Prod.fst).Nodup → ((popA m k).map Prod.fst).Nodup
  | [], _, hnd => hnd
  | (k1, v1) :: rest, k, hnd => by
    rw [popA]
    simp only [List.map_cons, List.nodup_cons] at hnd
    by_cases hk : k1 = k
    · rw [if_pos hk]
      exact hnd.2
    · rw [if_neg hk]
      simp only [List.map_cons, List.nodup_cons]
      exact ⟨fun hbad => hnd.1 (keys_popA_sub rest k k1 hbad), nodup_popA rest k hnd.2⟩

theorem lookupA_eq_none_iff {α : Type} : ∀ (m : List (Nat × α)) (k : Nat),
    lookupA m k = none ↔ k ∉ m.map Prod.fst
  | [], k => by
    rw [lookupA]
    simp
  | (k1, v1) :: rest, k => by
    rw [lookupA]
    by_cases hk : k1 = k
    · rw [if_pos hk]
      simp [hk]
    · rw [if_neg hk]
      simp only [List.map_cons, List.mem_cons]
      rw [lookupA_eq_none_iff rest k]
      constructor
      · rintro h (h1 | h2)
        · exact hk h1.symm
        · exact h h2
      · intro h h2
        exact h (Or.inr h2)

theorem lookupA_popA_self {α : Type} : ∀ (m : List (Nat × α)) (k : Nat),
    (m.map Prod.fst).Nodup → lookupA (popA m k) k = none
  | [], _, _ => rfl
  | (k1, v1) :: rest, k, hnd => by
    rw [popA]
    simp only [List.map_cons, List.nodup_cons] at hnd
    by_cases hk : k1 = k
    · rw [if_pos hk]
      rw [lookupA_eq_none_iff]
      subst hk
      exact hnd.1
    · rw [if_neg hk, lookupA, if_neg hk]
      exact lookupA_popA_self rest k hnd.2

theorem lookupA_popA_none {α : Type} : ∀ (m : List (Nat × α)) (k x : Nat),
    lookupA m k = none → lookupA (popA m x) k = none := by
  intro m k x h
  rw [lookupA_eq_none_iff] at h ⊢
  exact fun hbad => h (keys_popA_sub m x k hbad)

theorem lookupA_foldl_popA_none {α : Type} : ∀ (ks : List Nat) (m : List (Nat × α)) (k : Nat),
    lookupA m k = none → lookupA (ks.foldl popA m) k = none
  | [], _, _, h => h
  | x :: ks, m, k, h =>
    lookupA_foldl_popA_none ks (popA m x) k (lookupA_popA_none m k x h)

theorem lookupA_foldl_popA_mem {α : Type} : ∀ (ks : List Nat) (m : List (Nat × α)) (k : Nat),
    (m.map Prod.fst).Nodup → k ∈ ks → lookupA (ks.foldl popA m) k = none
  | [], _, _, _, hk => absurd hk (by simp)
  | x :: ks, m, k, hnd, hk => by
    rcases List.mem_cons.mp hk with h | h
    · exact lookupA_foldl_popA_none ks (popA m x) k (h ▸ lookupA_popA_self m k hnd)
    · exact lookupA_foldl_popA_mem ks (popA m x) k (nodup_popA m x hnd) h

theorem mem_foldl_popA {α : Type} : ∀ (ks : List Nat) (m : List (Nat × α)) (p : Nat × α),
    p ∈ ks.foldl popA m → p ∈ m
  | [], _, _, h => h
  | x :: ks, m, p, h => mem_popA m x p (mem_foldl_popA ks (popA m x) p h)

/-- Popping the first `n` keys of a duplicate-free insertion-ordered dict, in
order, drops its first `n` entries. -/
theorem foldl_popA_take {α : Type} : ∀ (m : List (Nat × α)) (n : Nat),
    (m.map Prod.fst).Nodup →
    ((m.map Prod.fst).take n).foldl popA m = m.drop n
  | [], n, _ => by simp
  | (k1, v1) :: rest, 0, _ => by simp
  | (k1, v1) :: rest, n + 1, hnd => by
    simp only [List.map_cons, List.nodup_cons] at hnd
    have hpop : popA ((k1, v1) :: rest) k1 = rest := by
      rw [popA, if_pos rfl]
    simp only [List.map_cons, List.take_succ_cons, List.foldl_cons, hpop,
      List.drop_succ_cons]
    exact foldl_popA_take rest n hnd.2

theorem nodup_foldl_popA {α : Type} : ∀ (ks : List Nat) (m : List (Nat × α)),
    (m.map Prod.fst).Nodup → ((ks.foldl popA m).map Prod.fst).Nodup
  | [], _, h => h
  | x :: ks, m, h => nodup_foldl_popA ks (popA m x) (nodup_popA m x h)

/-! ### The queue-manager invariant holds at every reachable state -/

theorem foldl_heappush_inv : ∀ (ts : List LLMTask) (h : List LLMTask),
    HeapInv h → HeapInv (ts.foldl heappush h)
  | [], _, hi => hi
  | t :: ts, h, hi => foldl_heappush_inv ts (heappush h t) (heappush_inv h t hi)

theorem qminv_step (s : QMState) (op : QOp) (hinv : QMInv s) : QMInv (step s op) := by
  obtain ⟨hheap, hproc, hsnd, hrnd⟩ := hinv
  cases op with
  | submit message priority =>
    refine ⟨hheap, ?_, nodup_setA _ _ _ hsnd, hrnd⟩
    intro p hp hpp
    rcases mem_setA _ _ _ p hsnd hp with h | h
    · rw [h] at hpp
      simp at hpp
    · exact hproc p h.1 hpp
  | submitTimeout message priority =>
    refine ⟨hheap, ?_, nodup_setA _ _ _ hsnd, nodup_setA _ _ _ hrnd⟩
    intro p hp hpp
    rcases mem_setA _ _ _ p hsnd hp with h | h
    · rw [h] at hpp
      simp at hpp
    · exact hproc p h.1 hpp
  | deliver =>
    cases hd : s.deliveries with
    | nil =>
      have hstep : step s .deliver = s := by
        simp [step, hd]
      rw [hstep]
      exact ⟨hheap, hproc, hsnd, hrnd⟩
    | cons t rest =>
      have hstep : step s .deliver =
          { s with heap := heappush s.heap t, deliveries := rest } := by
        simp [step, hd]
      rw [hstep]
      exact ⟨heappush_inv _ _ hheap, hproc, hsnd, hrnd⟩
  | drain =>
    exact ⟨foldl_heappush_inv _ _ hheap, hproc, hsnd, hrnd⟩
  | dequeue =>
    cases hc : s.current_task with
    | some t =>
      have hstep : step s .dequeue = s := by
        simp [step, hc]
      rw [hstep]
      exact ⟨hheap, hproc, hsnd, hrnd⟩
    | none =>
      cases hp : heappop s.heap with
      | none =>
        have hstep : step s .dequeue = s := by
          simp [step, hc, hp]
        rw [hstep]
        exact ⟨hheap, hproc, hsnd, hrnd⟩
      | some pr =>
        obtain ⟨t, rest⟩ := pr
        have hstep : step s .dequeue =
            { s with heap := rest, current_task := some t,
                     task_status := setA s.task_status t.task_id .processing,
                     processedOrder := s.processedOrder ++ [t.task_id],
                     handlerCalls := s.handlerCalls + 1 } := by
          simp [step, hc, hp]
        rw [hstep]
        refine ⟨heappop_inv s.heap t rest hheap hp, ?_, nodup_setA _ _ _ hsnd, hrnd⟩
        intro p hpmem hpp
        rcases mem_setA _ _ _ p hsnd hpmem with h | h
        · refine ⟨t, rfl, ?_⟩
          rw [h]
        · obtain ⟨t2, ht2, _⟩ := hproc p h.1 hpp
          rw [hc] at ht2
          exact absurd ht2 (by simp)
  | finishOk r =>
    cases hc : s.current_task with
    | none =>
      have hstep : step s (.finishOk r) = s := by
        simp [step, hc]
      rw [hstep]
      exact ⟨hheap, hproc, hsnd, hrnd⟩
    | some t =>
      have hstep : step s (.finishOk r) =
          { s with results := setA s.results t.task_id (.ok r),
                   task_status := setA s.task_status t.task_id .completed,
                   current_task := none } := by
        simp [step, hc]
      rw [hstep]
      refine ⟨hheap, ?_, nodup_setA _ _ _ hsnd, nodup_setA _ _ _ hrnd⟩
      intro p hpmem hpp
      rcases mem_setA _ _ _ p hsnd hpmem with h | h
      · rw [h] at hpp
        simp at hpp
      · obtain ⟨t2, ht2, hid⟩ := hproc p h.1 hpp
        rw [hc] at ht2
        injection ht2 with ht2e
        rw [← ht2e] at hid
        exact absurd hid (Ne.symm h.2)
  | finishErr e =>
    cases hc : s.current_task with
    | none =>
      have hstep : step s (.finishErr e) = s := by
        simp [step, hc]
      rw [hstep]
      exact ⟨hheap, hproc, hsnd, hrnd⟩
    | some t =>
      have hstep : step s (.finishErr e) =
          { s with task_status := setA s.task_status t.task_id .failed,
                   results := setA s.results t.task_id (.err e),
                   current_task := none } := by
        simp [step, hc]
      rw [hstep]
      refine ⟨hheap, ?_, nodup_setA _ _ _ hsnd, nodup_setA _ _ _ hrnd⟩
      intro p hpmem hpp
      rcases mem_setA _ _ _ p hsnd hpmem with h | h
      · rw [h] at hpp
        simp at hpp
      · obtain ⟨t2, ht2, hid⟩ := hproc p h.1 hpp
        rw [hc] at ht2
        injection ht2 with ht2e
        rw [← ht2e] at hid
        exact absurd hid (Ne.symm h.2)
  | storeResult r =>
    refine ⟨hheap, ?_, nodup_setA _ _ _ hsnd, nodup_setA _ _ _ hrnd⟩
    intro p hp hpp
    rcases mem_setA _ _ _ p hsnd hp with h | h
    · rw [h] at hpp
      simp at hpp
    · exact hproc p h.1 hpp
  | clearOld =>
    show QMInv (clearOldResults s)
    unfold clearOldResults
    by_cases hlen : s.results.length > 100
    · rw [if_pos hlen]
      refine ⟨hheap, ?_, nodup_foldl_popA _ _ hsnd, nodup_foldl_popA _ _ hrnd⟩
      intro p hp hpp
      exact hproc p (mem_foldl_popA _ _ p hp) hpp
    · rw [if_neg hlen]
      exact ⟨hheap, hproc, hsnd, hrnd⟩

theorem qminv_init : QMInv initQM := by
  refine ⟨?_, ?_, ?_, ?_⟩
  · intro j hj hjl
    simp [initQM] at hjl
  · intro p hp
    simp [initQM] at hp
  · simp [initQM]
  · simp [initQM]

theorem qminv_foldl : ∀ (ops : List QOp) (s : QMState), QMInv s → QMInv (ops.foldl step s)
  | [], _, h => h
  | op :: ops, s, h => qminv_foldl ops (step s op) (qminv_step s op h)

/-- Every reachable queue-manager state satisfies the invariant. -/
theorem qminv_runOps (ops : List QOp) : QMInv (runOps ops) :=
  qminv_foldl ops initQM qminv_init

/-! ### Handler result shapes -/

/-- `LLMHandler.process` returns either a success dict or an `llm_error`
dict whose content is the original message. -/
theorem llm_shape (cfg : OllamaCfg) (message : String) (le : LLMEnv) :
    (llmProcess cfg message le).rtype = "llm" ∨
    ((llmProcess cfg message le).rtype = "llm_error" ∧
      (llmProcess cfg message le).content = message) := by
  cases hf : pyFormat cfg.prompt_template message with
  | error e =>
    right
    simp [llmProcess, hf, mkLLMError]
  | ok p =>
    cases le with
    | raised e =>
      right
      simp [llmProcess, hf, mkLLMError]
    | response st tx =>
      by_cases hst : st ≠ 200
      · right
        simp [llmProcess, hf, hst, mkLLMError]
      · by_cases htx : pyStrip tx = ""
        · right
          simp [llmProcess, hf, hst, htx, mkLLMError]
        · left
          simp [llmProcess, hf, hst, htx]

/-- `QuoteHandler.process` returns either a success dict or a `quote_error`
dict whose content is the original message. -/
theorem quote_shape (message : String) (qe : QuoteEnv) :
    (quoteProcess message qe).rtype = "quote" ∨
    ((quoteProcess message qe).rtype = "quote_error" ∧
      (quoteProcess message qe).content = message) := by
  rcases qe with ⟨mav, co, qo⟩
  cases mav
  · right
    simp [quoteProcess, mkQuoteError]
  · cases co with
    | error e =>
      right
      simp [quoteProcess, mkQuoteError]
    | ok n =>
      by_cases hn : n = 0
      · right
        simp [quoteProcess, hn, mkQuoteError]
      · cases qo with
        | error e =>
          right
          simp [quoteProcess, hn, mkQuoteError]
        | ok rs =>
          cases rs with
          | nil =>
            right
            simp [quoteProcess, hn, mkQuoteError]
          | cons r rs2 =>
            left
            simp [quoteProcess, hn]

/-- The exact conditions under which `LLMHandler.process` returns its error
variant: a prompt-template formatting error, a raised request, a non-200
status, or an empty stripped body. -/
theorem llm_error_iff (cfg : OllamaCfg) (message : String) (le : LLMEnv) :
    (llmProcess cfg message le).rtype = "llm_error" ↔
      (∃ e, pyFormat cfg.prompt_template message = Except.error e) ∨
      (∃ e, le = .raised e) ∨
      (∃ status text, le = .response status text ∧ (status ≠ 200 ∨ pyStrip text = "")) := by
  cases hf : pyFormat cfg.prompt_template message with
  | error e =>
    constructor
    · intro _
      exact Or.inl ⟨e, rfl⟩
    · intro _
      simp [llmProcess, hf, mkLLMError]
  | ok p =>
    cases le with
    | raised e =>
      simp [llmProcess, hf, mkLLMError]
    | response st tx =>
      by_cases hst : st = 200
      · subst hst
        by_cases htx : pyStrip tx = ""
        · simp [llmProcess, hf, htx, mkLLMError]
          exact ⟨200, tx, ⟨rfl, rfl⟩, Or.inr htx⟩
        · simp [llmProcess, hf, htx]
      · simp [llmProcess, hf, hst, mkLLMError]
        exact ⟨st, tx, ⟨rfl, rfl⟩, Or.inl hst⟩

/-- The exact upstream conditions under which `QuoteHandler.process` returns
its error variant. -/
theorem quote_error_iff (message : String) (qe : QuoteEnv) :
    (quoteProcess message qe).rtype = "quote_error" ↔
      (qe.model_available = false ∨ (∃ e, qe.count_outcome = Except.error e) ∨
       qe.count_outcome = Except.ok 0 ∨ (∃ e, qe.query_outcome = Except.error e) ∨
       qe.query_outcome = Except.ok []) := by
  rcases qe with ⟨mav, co, qo⟩
  cases mav
  · simp [quoteProcess, mkQuoteError]
  · cases co with
    | error e =>
      simp [quoteProcess, mkQuoteError]
    | ok n =>
      by_cases hn : n = 0
      · subst hn
        simp [quoteProcess, mkQuoteError]
      · cases qo with
        | error e =>
          simp [quoteProcess, hn, mkQuoteError]
        | ok rs =>
          cases rs with
          | nil =>
            simp [quoteProcess, hn, mkQuoteError]
          | cons r rs2 =>
            simp [quoteProcess, hn]

/-- Every `RAGHandler.process` result is a `rag`, `quote` or `llm` success
dict, or an error dict whose content is the original message. -/
theorem rag_shape (cfg : RAGCfg) (message : String) (env : RAGEnv) :
    (ragProcess cfg message env).rtype = "rag" ∨
    (ragProcess cfg message env).rtype = "quote" ∨
    (ragProcess cfg message env).rtype = "llm" ∨
    (((ragProcess cfg message env).rtype = "llm_error" ∨
      (ragProcess cfg message env).rtype = "rag_error") ∧
      (ragProcess cfg message env).content = message) := by
  rcases env with ⟨qe, le, exc⟩
  cases exc with
  | some e =>
    right; right; right
    exact ⟨Or.inr rfl, rfl⟩
  | none =>
    by_cases hq : (quoteProcess message qe).rtype = "quote_error"
    · have hr : ragProcess cfg message ⟨qe, le, none⟩ = llmProcess cfg.llmCfg message le := by
        simp [ragProcess, hq]
      rw [hr]
      rcases llm_shape cfg.llmCfg message le with h | h
      · right; right; left
        exact h
      · right; right; right
        exact ⟨Or.inl h.1, h.2⟩
    · cases hfm : pyFormat cfg.rag_prompt_template (quoteProcess message qe).content with
      | error e =>
        right; right; right
        have hr : ragProcess cfg message ⟨qe, le, none⟩ = mkRAGError message e := by
          simp [ragProcess, hq, hfm]
        rw [hr]
        exact ⟨Or.inr rfl, rfl⟩
      | ok rp =>
        by_cases hl : (llmProcess { cfg.llmCfg with prompt_template := "{message}" }
            rp le).rtype = "llm_error"
        · have hr : ragProcess cfg message ⟨qe, le, none⟩ = quoteProcess message qe := by
            simp [ragProcess, hq, hfm, hl]
          rw [hr]
          rcases quote_shape message qe with h | h
          · right; left
            exact h
          · exact absurd h.1 hq
        · left
          simp [ragProcess, hq, hfm, hl]

/-! ### Counting processing entries -/

/-- A duplicate-free dict in which every "processing" entry carries one fixed
key has at most one "processing" entry. -/
theorem filter_proc_length_le_one (l : List (Nat × TStatus)) (c : Nat)
    (hnd : (l.map Prod.fst).Nodup)
    (hall : ∀ p ∈ l, p.2 = TStatus.processing → p.1 = c) :
    (l.filter (fun p => decide (p.2 = TStatus.processing))).length ≤ 1 := by
  induction l with
  | nil => simp
  | cons p l ih =>
    simp only [List.map_cons, List.nodup_cons] at hnd
    by_cases hp : p.2 = TStatus.processing
    · rw [List.filter_cons_of_pos (by simpa using hp)]
      have hrest : l.filter (fun q => decide (q.2 = TStatus.processing)) = [] := by
        rw [List.filter_eq_nil_iff]
        intro q hq
        simp only [decide_eq_true_eq]
        intro hqq
        have hq1 : q.1 = c := hall q (List.mem_cons_of_mem _ hq) hqq
        have hp1 : p.1 = c := hall p (List.mem_cons_self _ _) hp
        exact hnd.1 ((hp1.trans hq1.symm) ▸ List.mem_map_of_mem Prod.fst hq)
      rw [hrest]
      simp
    · rw [List.filter_cons_of_neg (by simpa using hp)]
      exact ih hnd.2 (fun q hq => hall q (List.mem_cons_of_mem _ hq))

/-! ### Behaviour of the polling loop -/

/-- When no polling iteration observes a stored result, `wait_for_result`
returns the `None` sentinel (this covers unknown ids, whose status is
"unknown" at every iteration). -/
theorem waitForResult_none : ∀ (trace : List QMState) (task_id : Nat),
    (∀ st ∈ trace, lookupA st.results task_id = none) →
    waitForResult trace task_id = none
  | [], _, _ => rfl
  | st :: rest, task_id, h => by
    have hres := h st (List.mem_cons_self _ _)
    have hrest := fun s2 hs2 => h s2 (List.mem_cons_of_mem _ hs2)
    simp only [waitForResult, hres]
    cases hs : lookupA st.task_status task_id with
    | none => exact waitForResult_none rest task_id hrest
    | some ts =>
      cases ts with
      | queued => exact waitForResult_none rest task_id hrest
      | processing => exact waitForResult_none rest task_id hrest
      | completed => rfl
      | failed => rfl

/-- As soon as a polling iteration preceded only by genuinely pending
observations sees the stored result, `wait_for_result` returns it. -/
theorem waitForResult_found : ∀ (pre : List QMState) (st : QMState) (post : List QMState)
    (task_id : Nat) (r : StoredResult),
    (∀ st2 ∈ pre, lookupA st2.results task_id = none ∧
      lookupA st2.task_status task_id ≠ some TStatus.completed ∧
      lookupA st2.task_status task_id ≠ some TStatus.failed) →
    lookupA st.results task_id = some r →
    waitForResult (pre ++ st :: post) task_id = some r
  | [], st, post, task_id, r, _, hres => by
    simp only [List.nil_append, waitForResult, hres]
  | st2 :: pre, st, post, task_id, r, hpre, hres => by
    obtain ⟨h1, h2, h3⟩ := hpre st2 (List.mem_cons_self _ _)
    have hrest := fun s hs => hpre s (List.mem_cons_of_mem _ hs)
    simp only [List.cons_append, waitForResult, h1]
    cases hs : lookupA st2.task_status task_id with
    | none => exact waitForResult_found pre st post task_id r hrest hres
    | some ts =>
      cases ts with
      | queued => exact waitForResult_found pre st post task_id r hrest hres
      | processing => exact waitForResult_found pre st post task_id r hrest hres
      | completed => exact absurd hs h2
      | failed => exact absurd hs h3

/-! ### Claim theorems -/

/-- C1 (counterexample): equal-priority tasks are not dequeued in submission
order. In the reachable state `c1State` — reached by a legal interleaving in
which tasks 1–4 (all ScreenText priority) are submitted while task 0 is being
processed, each delivered once by its `add_to_queue` coroutine and once by
the worker's pending-list drain — the queue still holds a task submitted as
number 2, every queued task has ScreenText priority, yet the worker's next
dequeue returns the task submitted later as number 3: after that dequeue the
processing order is `[0, 1, 3]`, not the submission order `[0, 1, 2]`. -/
theorem C1_fifo_counterexample :
    (∃ t ∈ c1State.heap, t.task_id = 2 ∧ t.priority = Priority.screenText) ∧
    (∀ t ∈ c1State.heap, t.priority = Priority.screenText) ∧
    (heappop c1State.heap).map (fun p => p.1.task_id) = some 3 ∧
    (runOps (c1Ops ++ [QOp.dequeue])).processedOrder = [0, 1, 3] := by
  decide

/-- C1 (amended): whenever the queue holds a UserResponse-priority task — in
particular whenever it simultaneously holds a UserResponse and a ScreenText
task — the worker's dequeue returns a UserResponse-priority task, at every
reachable state of the queue manager; among tasks of equal priority the
dequeue order is the binary-heap pop order, which need not be the submission
order. -/
theorem C1_priority_dequeue (ops : List QOp) (t : LLMTask) (rest : List LLMTask)
    (hpop : heappop (runOps ops).heap = some (t, rest))
    (hu : ∃ u ∈ (runOps ops).heap, u.priority = Priority.userResponse) :
    t.priority = Priority.userResponse := by
  obtain ⟨u, hu1, hu2⟩ := hu
  exact heappop_userResponse _ t rest (qminv_runOps ops).heapInv hpop u hu1 hu2

/-- C1 (witness): after one ScreenText and one UserResponse submission are
drained into the queue, the dequeue returns the UserResponse task. -/
theorem C1_priority_dequeue_witness :
    ∃ t rest, heappop (runOps c1wOps).heap = some (t, rest) ∧
      t.priority = Priority.userResponse := by
  have hpop : heappop (runOps c1wOps).heap =
      some (⟨1, "b", Priority.userResponse⟩, [⟨0, "a", Priority.screenText⟩]) := by
    decide
  exact ⟨_, _, hpop, C1_priority_dequeue c1wOps _ _ hpop (by decide)⟩

/-- C2: at every reachable state of the queue manager, at most one
`task_status` entry is "processing": the worker marks a task processing only
from an idle state (`current_task = None`), which it reaches only by first
recording "completed" or "failed" for the previous task and clearing it. -/
theorem C2_at_most_one_processing (ops : List QOp) :
    processingCount (runOps ops) ≤ 1 := by
  obtain ⟨_, hproc, hsnd, _⟩ := qminv_runOps ops
  unfold processingCount
  cases hc : (runOps ops).current_task with
  | none =>
    have hnil : (runOps ops).task_status.filter
        (fun p => decide (p.2 = TStatus.processing)) = [] := by
      rw [List.filter_eq_nil_iff]
      intro p hp
      simp only [decide_eq_true_eq]
      intro hpp
      obtain ⟨t, ht, _⟩ := hproc p hp hpp
      rw [hc] at ht
      exact absurd ht (by simp)
    rw [hnil]
    simp
  | some t =>
    apply filter_proc_length_le_one _ t.task_id hsnd
    intro p hp hpp
    obtain ⟨t2, ht2, hid⟩ := hproc p hp hpp
    rw [hc] at ht2
    injection ht2 with he
    rw [he]
    exact hid.symm

/-- C3 (counterexample): the result store is not capped at any reachable
state. After 101 results are stored through `_store_result` the store holds
101 entries — exceeding 100 — and the oldest-inserted result (task id 0) is
still present, because no code path ever invokes `clear_old_results`. -/
theorem C3_cap_counterexample :
    (runOps c3Ops).results.length = 101 ∧
    100 < (runOps c3Ops).results.length ∧
    lookupA (runOps c3Ops).results 0 = some (.ok (echoProcess "m")) := by
  refine ⟨by decide, by decide, by decide⟩

/-- C3 (amended): `clear_old_results`, when invoked at a reachable state
holding more than 100 results, evicts exactly the oldest-inserted
`len - 100` results (so exactly one after the 101st store) and leaves
exactly 100, dropping both the result and the status of every evicted id;
but nothing on the worker or storage path invokes it, so the store's size
does exceed 100 at reachable states. -/
theorem C3_clear_caps_store (ops : List QOp)
    (hlen : 100 < (runOps ops).results.length) :
    (clearOldResults (runOps ops)).results =
      (runOps ops).results.drop ((runOps ops).results.length - 100) ∧
    (clearOldResults (runOps ops)).results.length = 100 ∧
    (∀ k ∈ ((runOps ops).results.map Prod.fst).take ((runOps ops).results.length - 100),
      lookupA (clearOldResults (runOps ops)).results k = none ∧
      lookupA (clearOldResults (runOps ops)).task_status k = none) := by
  obtain ⟨_, _, hsnd, hrnd⟩ := qminv_runOps ops
  have hcl : clearOldResults (runOps ops) =
      { runOps ops with
        results := (((runOps ops).results.map Prod.fst).take
          ((runOps ops).results.length - 100)).foldl popA (runOps ops).results,
        task_status := (((runOps ops).results.map Prod.fst).take
          ((runOps ops).results.length - 100)).foldl popA (runOps ops).task_status } := by
    unfold clearOldResults
    rw [if_pos hlen]
  refine ⟨?_, ?_, ?_⟩
  · rw [hcl]
    exact foldl_popA_take _ _ hrnd
  · rw [hcl]
    have := foldl_popA_take (runOps ops).results ((runOps ops).results.length - 100) hrnd
    rw [this, List.length_drop]
    omega
  · intro k hk
    rw [hcl]
    exact ⟨lookupA_foldl_popA_mem _ _ _ hrnd hk, lookupA_foldl_popA_mem _ _ _ hsnd hk⟩

/-- C3 (witness): calling `clear_old_results` on the reachable state holding
101 stored results trims the store to exactly 100 entries. -/
theorem C3_clear_caps_store_witness :
    (clearOldResults (runOps c3Ops)).results.length = 100 :=
  (C3_clear_caps_store c3Ops (by decide)).2.1

/-- C4 (counterexample): an upstream failure listed by the claim — a vector
store with no embedded quotes — does not make `RAGHandler.process` return an
error-tagged result with the original message as content: with a healthy
generation service it returns a success dict of kind `llm` whose content is
the generated text, not the message. -/
theorem C4_error_fallback_counterexample :
    (ragProcess demoRAG "hello" c4Env).rtype = "llm" ∧
    (ragProcess demoRAG "hello" c4Env).content = "a haiku" ∧
    (ragProcess demoRAG "hello" c4Env).content ≠ "hello" ∧
    (ragProcess demoRAG "hello" c4Env).rtype ≠ "llm_error" ∧
    (ragProcess demoRAG "hello" c4Env).rtype ≠ "rag_error" ∧
    (ragProcess demoRAG "hello" c4Env).rtype ≠ "quote_error" ∧
    c4Env.quoteEnv.count_outcome = Except.ok 0 := by
  refine ⟨by decide, by decide, by decide, by decide, by decide, by decide, rfl⟩

/-- C4 (amended): every handler's process operation is total and returns a
tagged result dict; every error-tagged result carries the original input
message as its content; for LLMHandler and QuoteHandler each listed upstream
failure — and only a failure — yields the error-tagged variant; RAGHandler
instead degrades (to the plain LLM call on retrieval failure, to the
retrieved quote on generation failure), error-tagging with the original
message only when its own flow raises. -/
theorem C4_handlers_tagged_results (message : String) (cfg : OllamaCfg) (rcfg : RAGCfg)
    (le : LLMEnv) (qe : QuoteEnv) (re : RAGEnv) :
    ((llmProcess cfg message le).rtype = "llm" ∨
      ((llmProcess cfg message le).rtype = "llm_error" ∧
        (llmProcess cfg message le).content = message)) ∧
    ((quoteProcess message qe).rtype = "quote" ∨
      ((quoteProcess message qe).rtype = "quote_error" ∧
        (quoteProcess message qe).content = message)) ∧
    ((echoProcess message).rtype = "echo" ∧ (echoProcess message).content = message) ∧
    ((ragProcess rcfg message re).rtype = "rag" ∨
      (ragProcess rcfg message re).rtype = "quote" ∨
      (ragProcess rcfg message re).rtype = "llm" ∨
      (((ragProcess rcfg message re).rtype = "llm_error" ∨
        (ragProcess rcfg message re).rtype = "rag_error") ∧
        (ragProcess rcfg message re).content = message)) ∧
    ((llmProcess cfg message le).rtype = "llm_error" ↔
      (∃ e, pyFormat cfg.prompt_template message = Except.error e) ∨
      (∃ e, le = .raised e) ∨
      (∃ status text, le = .response status text ∧ (status ≠ 200 ∨ pyStrip text = ""))) ∧
    ((quoteProcess message qe).rtype = "quote_error" ↔
      (qe.model_available = false ∨ (∃ e, qe.count_outcome = Except.error e) ∨
       qe.count_outcome = Except.ok 0 ∨ (∃ e, qe.query_outcome = Except.error e) ∨
       qe.query_outcome = Except.ok [])) :=
  ⟨llm_shape cfg message le, quote_shape message qe, ⟨rfl, rfl⟩,
    rag_shape rcfg message re, llm_error_iff cfg message le, quote_error_iff message qe⟩

/-- C5: when the vector store holds no embedded quotes the similarity
retrieval step returns its error variant, and `RAGHandler.process` returns
exactly the result of a plain LLM call on the original message — kind `llm`
or its error variant, never `rag`. (`env.exc = none` states that the
handler's own composition does not raise, which holds whenever the
configured templates are well-formed.) -/
theorem C5_rag_empty_store_degrades (message : String) (cfg : RAGCfg) (env : RAGEnv)
    (hexc : env.exc = none)
    (hempty : env.quoteEnv.count_outcome = Except.ok 0) :
    ragProcess cfg message env = llmProcess cfg.llmCfg message env.llmEnv ∧
    ((ragProcess cfg message env).rtype = "llm" ∨
      (ragProcess cfg message env).rtype = "llm_error") ∧
    (ragProcess cfg message env).rtype ≠ "rag" := by
  have hq : (quoteProcess message env.quoteEnv).rtype = "quote_error" := by
    rw [quote_error_iff]
    right; right; left
    exact hempty
  have hr : ragProcess cfg message env = llmProcess cfg.llmCfg message env.llmEnv := by
    rcases env with ⟨qe, le, exc⟩
    simp only at hexc
    subst hexc
    simp [ragProcess, hq]
  refine ⟨hr, ?_, ?_⟩
  · rw [hr]
    rcases llm_shape cfg.llmCfg message env.llmEnv with h | h
    · exact Or.inl h
    · exact Or.inr h.1
  · rw [hr]
    rcases llm_shape cfg.llmCfg message env.llmEnv with h | h
    · rw [h]
      decide
    · rw [h.1]
      decide

/-- C5 (witness): with an empty vector store and an unreachable generation
service, the RAG handler returns the degraded plain-LLM error result. -/
theorem C5_rag_empty_store_degrades_witness :
    ragProcess demoRAG "hello" c5Env =
      llmProcess demoOllama "hello" (.raised "connection refused") ∧
    (ragProcess demoRAG "hello" c5Env).rtype ≠ "rag" :=
  ⟨(C5_rag_empty_store_degrades "hello" demoRAG c5Env rfl rfl).1,
    (C5_rag_empty_store_degrades "hello" demoRAG c5Env rfl rfl).2.2⟩

/-- C6 (code evaluation at the failing input): message `"hello"`, both
channels resolving to mode `llm`, user result supplied for reuse. The screen
channel behaves as the claim says — it invokes no handler and stores the
supplied user result unchanged under the freshly minted task id 1 with
status completed, leaving the worker's handler-invocation count untouched —
but the single user-channel submission was enqueued twice (once by its
`add_to_queue` coroutine, once by the worker's pending-list drain), so task
0 was marked processing twice and its handler ran twice: the handler runs
twice for the message across both channels, not exactly once. -/
theorem C6_reuse_evaluation :
    c6State.handlerCalls = 2 ∧
    c6State.processedOrder = [0, 0] ∧
    c6Screen.map Prod.fst = some 1 ∧
    lookupA c6State.results 1 = none ∧
    lookupA c6After.results 1 = some (.ok c6Res) ∧
    lookupA c6After.task_status 1 = some TStatus.completed ∧
    c6After.handlerCalls = 2 := by
  refine ⟨by decide, by decide, by decide, by decide, by decide, by decide, by decide⟩

/-- C7: on the user channel, when the resolved mode is serialized (`llm` or
`rag`) and `wait_for_result` comes back with the `None` timeout sentinel,
`process_user_immediate` neither blocks nor raises: it returns the Echo
result for the message (kind `echo`, content equal to the message) together
with the queue task id. -/
theorem C7_user_timeout_echo (settings : Settings) (qe : QuoteEnv) (message : String)
    (user_mode : Option String) (tid : Nat)
    (hmode : pyOr user_mode settings.user_response_mode = "llm" ∨
             pyOr user_mode settings.user_response_mode = "rag") :
    process_user_immediate settings qe message user_mode none tid =
      (.ok (echoProcess message), some tid) ∧
    (echoProcess message).rtype = "echo" ∧ (echoProcess message).content = message := by
  rcases hmode with h | h <;>
    · unfold process_user_immediate
      rw [h]
      exact ⟨rfl, rfl, rfl⟩

/-- C7 (witness): settings resolve the user channel to `llm`; the wait
oracle times out; the Echo result comes back with the task id. -/
theorem C7_user_timeout_echo_witness :
    process_user_immediate { user_response_mode := "llm", screen_text_mode := "echo" }
      okQuoteEnv "hi" none none 7 = (.ok (echoProcess "hi"), some 7) ∧
    (echoProcess "hi").content = "hi" :=
  ⟨(C7_user_timeout_echo { user_response_mode := "llm", screen_text_mode := "echo" }
      okQuoteEnv "hi" none 7 (Or.inl rfl)).1,
    (C7_user_timeout_echo { user_response_mode := "llm", screen_text_mode := "echo" }
      okQuoteEnv "hi" none 7 (Or.inl rfl)).2.2⟩

/-- C8: `wait_for_result` never raises (it is a total function of the
observed polling trace), returns the `None` sentinel whenever no polling
iteration inside the timeout window observes a stored result — in
particular for unknown ids — and returns the stored result as soon as an
iteration preceded only by pending observations sees the task completed or
failed with its result stored. -/
theorem C8_wait_for_result (trace : List QMState) (task_id : Nat) :
    ((∀ st ∈ trace, lookupA st.results task_id = none) →
      waitForResult trace task_id = none) ∧
    (∀ pre st post r, trace = pre ++ st :: post →
      (∀ st2 ∈ pre, lookupA st2.results task_id = none ∧
        lookupA st2.task_status task_id ≠ some TStatus.completed ∧
        lookupA st2.task_status task_id ≠ some TStatus.failed) →
      lookupA st.results task_id = some r →
      (lookupA st.task_status task_id = some TStatus.completed ∨
        lookupA st.task_status task_id = some TStatus.failed) →
      waitForResult trace task_id = some r) := by
  constructor
  · exact waitForResult_none trace task_id
  · intro pre st post r htr hpre hres _
    rw [htr]
    exact waitForResult_found pre st post task_id r hpre hres

/-- C8 (witness): polling task 0 over a trace that first observes it queued
and then completed returns its stored Echo result; polling an id that never
acquires a result returns the sentinel. -/
theorem C8_wait_for_result_witness :
    waitForResult [c8s0, c8s1] 0 = some (.ok (echoProcess "m")) ∧
    waitForResult [c8s0, c8s1] 5 = none := by
  constructor
  · exact (C8_wait_for_result [c8s0, c8s1] 0).2 [c8s0] c8s1 [] (.ok (echoProcess "m"))
      rfl (by decide) (by decide) (Or.inl (by decide))
  · exact (C8_wait_for_result [c8s0, c8s1] 5).1 (by decide)

/-- C9: `update_settings` validates each field independently against the
closed mode set and never raises: an invalid user mode leaves
`user_response_mode` unchanged while a valid screen mode is still applied,
and symmetrically; a valid value is always applied and an invalid value
never alters the other field. -/
theorem C9_update_settings (s : Settings) (u sc : String) :
    (u ∉ validModes →
      (update_settings s u sc).user_response_mode = s.user_response_mode) ∧
    (u ∈ validModes → (update_settings s u sc).user_response_mode = u) ∧
    (sc ∉ validModes →
      (update_settings s u sc).screen_text_mode = s.screen_text_mode) ∧
    (sc ∈ validModes → (update_settings s u sc).screen_text_mode = sc) := by
  unfold update_settings
  by_cases hu : u ∈ validModes <;> by_cases hsc : sc ∈ validModes <;>
    simp [hu, hsc]

/-- C9 (witness): `update_settings("bogus", "llm")` from `{echo, echo}`
leaves the user mode at `echo` and sets the screen mode to `llm`. -/
theorem C9_update_settings_witness :
    (update_settings { user_response_mode := "echo", screen_text_mode := "echo" }
      "bogus" "llm").user_response_mode = "echo" ∧
    (update_settings { user_response_mode := "echo", screen_text_mode := "echo" }
      "bogus" "llm").screen_text_mode = "llm" :=
  ⟨(C9_update_settings _ "bogus" "llm").1 (by decide),
    (C9_update_settings _ "bogus" "llm").2.2.2 (by decide)⟩

/-- C10 (counterexample): the claim fails for the empty-string override,
which is a mode string outside the handler registry. `process_user_immediate`
resolves the override with Python's falsy `or`, so `""` falls back to the
settings mode — here `llm`, the serialized path: the returned result is the
queued task's generation result (kind `llm`, content not the message) and a
queue task id is present, not the Echo result with no task id the claim
demands. -/
theorem C10_empty_mode_counterexample :
    ("" ∉ handlerModes) ∧
    process_user_immediate { user_response_mode := "llm", screen_text_mode := "echo" }
      okQuoteEnv "hey" (some "") (some (.ok c10Res)) 3 = (.ok c10Res, some 3) ∧
    c10Res.rtype = "llm" ∧
    c10Res.rtype ≠ "echo" ∧
    c10Res.content ≠ "hey" := by
  refine ⟨by decide, by decide, by decide, by decide, by decide⟩

/-- C10 (amended): for any mode string outside the handler registry,
`_process_single_message` does not raise: it falls back to the Echo handler,
returning a result of kind `echo` with content equal to the message and no
queue task id; `process_user_immediate` behaves the same for any non-empty
override mode outside the registry, but the empty-string override is falsy
in Python's `user_mode or settings` and resolves to the settings mode
instead, following that mode's path. -/
theorem C10_unknown_mode_echo (qe : QuoteEnv) (message mode : String)
    (wait : Option StoredResult) (tid : Nat) (settings : Settings)
    (hmode : mode ∉ handlerModes) :
    processSingleMessage qe message mode wait tid = (.ok (echoProcess message), none) ∧
    (mode ≠ "" → process_user_immediate settings qe message (some mode) wait tid =
      (.ok (echoProcess message), none)) ∧
    process_user_immediate settings qe message (some "") wait tid =
      processSingleMessage qe message settings.user_response_mode wait tid ∧
    (echoProcess message).rtype = "echo" ∧ (echoProcess message).content = message := by
  have h1 : processSingleMessage qe message mode wait tid =
      (.ok (echoProcess message), none) := by
    unfold processSingleMessage
    rw [if_pos hmode]
  refine ⟨h1, ?_, rfl, rfl, rfl⟩
  intro hne
  have h2 : pyOr (some mode) settings.user_response_mode = mode := by
    simp [pyOr, hne]
  unfold process_user_immediate
  rw [h2]
  exact h1

/-- C10 (witness): the non-empty unregistered mode `"bogus"` degrades to
Echo on both entry points. -/
theorem C10_unknown_mode_echo_witness :
    processSingleMessage okQuoteEnv "hey" "bogus" none 3 =
      (.ok (echoProcess "hey"), none) ∧
    process_user_immediate { user_response_mode := "echo", screen_text_mode := "echo" }
      okQuoteEnv "hey" (some "bogus") none 3 = (.ok (echoProcess "hey"), none) :=
  ⟨(C10_unknown_mode_echo okQuoteEnv "hey" "bogus" none 3
      { user_response_mode := "echo", screen_text_mode := "echo" } (by decide)).1,
    (C10_unknown_mode_echo okQuoteEnv "hey" "bogus" none 3
      { user_response_mode := "echo", screen_text_mode := "echo" } (by decide)).2.1
      (by decide)⟩

/-- C4 (witness): a raised connection error makes `LLMHandler.process`
return the error-tagged variant. -/
theorem C4_handlers_tagged_results_witness :
    (llmProcess demoOllama "m" (.raised "x")).rtype = "llm_error" :=
  (C4_handlers_tagged_results "m" demoOllama demoRAG (.raised "x") okQuoteEnv
    c4Env).2.2.2.2.1.mpr (Or.inr (Or.inl ⟨"x", rfl⟩))
